import Mathlib

/-
# A verification development for `cart_cache.c`

The frame cache of the CART driver is a table of `MaxCacheFrames` records,
indexed by `frameAddress % MaxCacheFrames`, threaded on a doubly linked
recency list through the `next` / `prev` pointers of the records.

Embedding conventions.

* A pointer to a record (`CacheRecord *`) is either `NULL` (`none`) or the
  address of an element of the table `Cache` (`some i` for `&Cache[i]`); the
  code never forms any other record pointer.
* The globals `head`, `tail`, `LruListSize`, `MaxCacheFrames` and `Cache` are
  the fields of `CacheState`, passed explicitly.
* Every function returns an `Option`: `none` stands for undefined behaviour
  of the C program (a table access out of bounds, a remainder by zero, a
  `memcpy` reading past the end of the source buffer, a signed overflow).
* Machine integers are natural numbers with their range made explicit.  The
  index types `CartridgeIndex` and `CartFrameIndex` of `cart_controller.h` are
  16-bit unsigned integers: in `cart * frm` both operands are promoted to
  `int`, so a product above `INT_MAX` is a signed overflow, which is undefined
  behaviour as well (`frameAddr`).
* The constants of `cart_controller.h` are not part of this file; they are
  the fields of `CartParams`.
* The frame bytes are a list of numbers; `void *buf` is the list of the bytes
  readable at `buf`.

Layout: the embedding of the C functions, then the vocabulary of the proofs
(the list that a state represents, the invariant), then the lemmas on the
list primitives and on the public functions, then the claims.
-/

namespace CartCache

/-- The constants that `cart_cache.c` takes from `cart_controller.h`. -/
structure CartParams where
  CART_MAX_CARTRIDGES : Nat
  CART_CARTRIDGE_SIZE : Nat
  CART_FRAME_SIZE : Nat
  deriving DecidableEq

/-- `#define CACHE_NO_FRAME (CART_MAX_CARTRIDGES * CART_CARTRIDGE_SIZE)`. -/
def CACHE_NO_FRAME (p : CartParams) : Nat :=
  p.CART_MAX_CARTRIDGES * p.CART_CARTRIDGE_SIZE

/-- `struct lruRecord`: the two list pointers, the cached address and the
frame bytes. -/
structure CacheRecord where
  next : Option Nat
  prev : Option Nat
  frameAddress : Nat
  frame : List Nat
  deriving DecidableEq

/-- The globals of `cart_cache.c`. -/
structure CacheState where
  head : Option Nat
  tail : Option Nat
  LruListSize : Int
  MaxCacheFrames : Nat
  Cache : List CacheRecord
  deriving DecidableEq

/-- Read `record->next`; `none` when `record` is not an element of the table. -/
def getNext (s : CacheState) (record : Nat) : Option (Option Nat) :=
  match s.Cache[record]? with
  | some r => some r.next
  | none => none

/-- Read `record->prev`. -/
def getPrev (s : CacheState) (record : Nat) : Option (Option Nat) :=
  match s.Cache[record]? with
  | some r => some r.prev
  | none => none

/-- The assignment `record->next = v`. -/
def setNext (s : CacheState) (record : Nat) (v : Option Nat) : Option CacheState :=
  match s.Cache[record]? with
  | some r => some { s with Cache := s.Cache.set record { r with next := v } }
  | none => none

/-- The assignment `record->prev = v`. -/
def setPrev (s : CacheState) (record : Nat) (v : Option Nat) : Option CacheState :=
  match s.Cache[record]? with
  | some r => some { s with Cache := s.Cache.set record { r with prev := v } }
  | none => none

/-- Read `Cache[idx].frameAddress`. -/
def getAddr (s : CacheState) (idx : Nat) : Option Nat :=
  match s.Cache[idx]? with
  | some r => some r.frameAddress
  | none => none

/-- The assignment `Cache[idx].frameAddress = a`. -/
def setAddr (s : CacheState) (idx : Nat) (a : Nat) : Option CacheState :=
  match s.Cache[idx]? with
  | some r => some { s with Cache := s.Cache.set idx { r with frameAddress := a } }
  | none => none

/-- The bytes of `Cache[idx].frame`. -/
def getFrame (s : CacheState) (idx : Nat) : Option (List Nat) :=
  match s.Cache[idx]? with
  | some r => some r.frame
  | none => none

/-- The call `memcpy(Cache[idx].frame, buf, n)` where `n` is the size of the
frame array: all `n` bytes of the frame are replaced by the first `n` bytes of
`buf`, and reading a shorter `buf` is undefined. -/
def memcpyFrame (s : CacheState) (idx : Nat) (buf : List Nat) (n : Nat) :
    Option CacheState :=
  match s.Cache[idx]? with
  | some r =>
    if buf.length < n then none
    else some { s with Cache := s.Cache.set idx { r with frame := buf.take n } }
  | none => none

/-- `remove_from_lru`, lines 38-66.  The function returns the constant 0,
which no caller reads; the embedding returns the new state only. -/
def remove_from_lru (s : CacheState) (record : Nat) : Option CacheState := do
  let nx ← getNext s record
  let pv ← getPrev s record
  if nx ≠ none ∨ pv ≠ none then
    let s1 ← (match pv with
      | some q => do
        let v ← getNext s record
        setNext s q v
      | none => do
        let v ← getNext s record
        pure { s with head := v })
    let nx1 ← getNext s1 record
    let s2 ← (match nx1 with
      | some q => do
        let v ← getPrev s1 record
        setPrev s1 q v
      | none => do
        let v ← getPrev s1 record
        pure { s1 with tail := v })
    let s3 ← setNext s2 record none
    setPrev s3 record none
  else
    pure s

/-- `put_at_lru_head`, lines 68-88 (return value 0 dropped as above). -/
def put_at_lru_head (s : CacheState) (record : Nat) : Option CacheState :=
  if s.head = some record then some s
  else do
    let s1 ← remove_from_lru s record
    match s1.head with
    | none => pure { s1 with head := some record, tail := some record }
    | some h => do
      let s2 ← setPrev s1 h (some record)
      let s3 ← setNext s2 record s2.head
      pure { s3 with head := some record }

/-- The body of the loop of `init_cart_cache` run for `k` more iterations
starting at index `i`. -/
def init_loop (p : CartParams) : Nat → Nat → CacheState → Option CacheState
  | 0, _, s => some s
  | k + 1, i, s => do
    let s1 ← setAddr s i (CACHE_NO_FRAME p)
    let s2 ← setNext s1 i none
    let s3 ← setPrev s2 i none
    init_loop p k (i + 1) s3

/-- `init_cart_cache`, lines 117-131. -/
def init_cart_cache (p : CartParams) (s : CacheState) : Option (CacheState × Int) := do
  let s0 : CacheState := { s with head := none, tail := none, LruListSize := 0 }
  let s1 ← init_loop p s0.MaxCacheFrames 0 s0
  pure (s1, 0)

/-- The value of `uint32_t frameAddress = cart * frm`.  The arguments are
values of the 16-bit unsigned index types, so a number that does not fit 16
bits is not an argument the functions can receive.  The operands are promoted
to `int` and multiplied as signed integers: a product above
`INT_MAX = 2 ^ 31 - 1` overflows, which is undefined; any other product is
stored in the `uint32_t` unchanged. -/
def frameAddr (cart frm : Nat) : Option Nat :=
  if cart < 2 ^ 16 ∧ frm < 2 ^ 16 ∧ cart * frm ≤ 2 ^ 31 - 1 then some (cart * frm) else none

/-- `put_cart_cache`, lines 158-172.  The result is the new state and the
returned `int`. -/
def put_cart_cache (p : CartParams) (s : CacheState) (cart frm : Nat) (buf : List Nat) :
    Option (CacheState × Int) :=
  match frameAddr cart frm with
  | none => none
  | some frameAddress =>
    if frameAddress ≥ CACHE_NO_FRAME p then some (s, -1)
    else if s.MaxCacheFrames = 0 then none
    else do
      let idx := frameAddress % s.MaxCacheFrames
      let s1 ← setAddr s idx frameAddress
      let s2 ← memcpyFrame s1 idx buf p.CART_FRAME_SIZE
      let s3 ← put_at_lru_head s2 idx
      pure (s3, 0)

/-- `get_cart_cache`, lines 183-195.  The returned pointer is `some idx` for
`Cache[idx].frame` and `none` for `NULL`. -/
def get_cart_cache (p : CartParams) (s : CacheState) (cart frm : Nat) :
    Option (CacheState × Option Nat) :=
  match frameAddr cart frm with
  | none => none
  | some frameAddress =>
    if frameAddress ≥ CACHE_NO_FRAME p then some (s, none)
    else if s.MaxCacheFrames = 0 then none
    else do
      let idx := frameAddress % s.MaxCacheFrames
      let a ← getAddr s idx
      if a = frameAddress then do
        let s1 ← put_at_lru_head s idx
        pure (s1, some idx)
      else pure (s, none)

/-- `delete_cart_cache`, lines 206-220. -/
def delete_cart_cache (p : CartParams) (s : CacheState) (cart frm : Nat) :
    Option (CacheState × Option Nat) :=
  match frameAddr cart frm with
  | none => none
  | some frameAddress =>
    if frameAddress ≥ CACHE_NO_FRAME p then some (s, none)
    else if s.MaxCacheFrames = 0 then none
    else do
      let idx := frameAddress % s.MaxCacheFrames
      let a ← getAddr s idx
      if a = frameAddress then do
        let s1 ← remove_from_lru s idx
        let s2 ← setAddr s1 idx (CACHE_NO_FRAME p)
        pure (s2, some idx)
      else pure (s, none)

/-- The bytes behind a pointer returned by `get_cart_cache` or
`delete_cart_cache`, read in state `s`; `none` for `NULL`. -/
def deref (s : CacheState) (ptr : Option Nat) : Option (List Nat) :=
  match ptr with
  | some i => getFrame s i
  | none => none

/-- One call of the public data interface. -/
inductive CacheOp where
  | put (cart frm : Nat) (buf : List Nat)
  | get (cart frm : Nat)
  | delete (cart frm : Nat)
  deriving DecidableEq

/-- The state after one call. -/
def step (p : CartParams) (s : CacheState) : CacheOp → Option CacheState
  | .put cart frm buf => (put_cart_cache p s cart frm buf).map Prod.fst
  | .get cart frm => (get_cart_cache p s cart frm).map Prod.fst
  | .delete cart frm => (delete_cart_cache p s cart frm).map Prod.fst

/-- The state after a sequence of calls. -/
def run (p : CartParams) (s : CacheState) : List CacheOp → Option CacheState
  | [] => some s
  | op :: ops => (step p s op).bind (fun s1 => run p s1 ops)

/-- The table pointer addresses exactly `MaxCacheFrames` records, as
`set_cart_cache_size` leaves it when `malloc` succeeds. -/
def Configured (s : CacheState) : Prop := s.Cache.length = s.MaxCacheFrames

instance (s : CacheState) : Decidable (Configured s) := by
  unfold Configured; infer_instance

/-- The states reached from `init_cart_cache` by the calls `ops`. -/
def ReachableBy (p : CartParams) (ops : List CacheOp) (s : CacheState) : Prop :=
  ∃ s0 si, Configured s0 ∧ init_cart_cache p s0 = some (si, 0) ∧ run p si ops = some s

/-- The states reached from `init_cart_cache` by some sequence of `put`, `get`
and `delete` calls. -/
def Reachable (p : CartParams) (s : CacheState) : Prop := ∃ ops, ReachableBy p ops s

/-- Follow `next` from `cur` for at most `fuel` records; `none` when the fuel
runs out before `NULL` is met. -/
def walk (s : CacheState) : Nat → Option Nat → Option (List Nat)
  | _, none => some []
  | 0, some _ => none
  | fuel + 1, some i => do
    let nx ← getNext s i
    let rest ← walk s fuel nx
    pure (i :: rest)

/-- The records on the recency list, from `head` towards `tail`. -/
def lruList (s : CacheState) : Option (List Nat) := walk s (s.Cache.length + 1) s.head

/-- The constants used for the concrete runs below. -/
def cartDefaults : CartParams := ⟨64, 1024, 1024⟩

/-- A configured table of `n` records with arbitrary (here zero) contents. -/
def blank (n : Nat) : CacheState :=
  ⟨none, none, 0, n, List.replicate n ⟨none, none, 0, []⟩⟩

/-- The element that follows `i` in the list, `none` when `i` is last or absent. -/
def nextOf : List Nat → Nat → Option Nat
  | [], _ => none
  | x :: xs, i => if x = i then xs.head? else nextOf xs i

/-- The element that precedes `i` in the list, `none` when `i` is first or absent. -/
def prevOf : List Nat → Nat → Option Nat
  | [], _ => none
  | [_], _ => none
  | x :: y :: xs, i => if y = i then some x else prevOf (y :: xs) i

/-- Replace record `j` of the table by its image under `f` (nothing changes
when `j` is not in the table). -/
def modRec (s : CacheState) (j : Nat) (f : CacheRecord → CacheRecord) : CacheState :=
  match s.Cache[j]? with
  | some r => { s with Cache := s.Cache.set j (f r) }
  | none => s

/-- The list `l` is the recency list of `s`: it has no repetition, stays inside
the table, starts at `head`, ends at `tail`, and the `next` / `prev` fields of
every record are its neighbours in `l` (`NULL` for a record outside `l`). -/
def Rep (s : CacheState) (l : List Nat) : Prop :=
  l.Nodup ∧ (∀ i ∈ l, i < s.Cache.length) ∧ s.head = l.head? ∧ s.tail = l.getLast? ∧
    ∀ i r, s.Cache[i]? = some r → r.next = nextOf l i ∧ r.prev = prevOf l i

/-- The states `s` and `t` agree on everything but the list pointers. -/
def SameData (s t : CacheState) : Prop :=
  t.MaxCacheFrames = s.MaxCacheFrames ∧ t.LruListSize = s.LruListSize ∧
    t.Cache.length = s.Cache.length ∧
    ∀ i, getAddr t i = getAddr s i ∧ getFrame t i = getFrame s i

/-- The `next` / `prev` fields of the table are the functions `nx` / `pv`. -/
def LinkFn (s : CacheState) (nx pv : Nat → Option Nat) : Prop :=
  ∀ i r, s.Cache[i]? = some r → r.next = nx i ∧ r.prev = pv i

/-- Every occupied slot is on the list `l`. -/
def Occ (p : CartParams) (s : CacheState) (l : List Nat) : Prop :=
  ∀ i a, getAddr s i = some a → a ≠ CACHE_NO_FRAME p → i ∈ l

/-- Every slot is empty or holds an address below the sentinel that maps to it. -/
def Placed (p : CartParams) (s : CacheState) : Prop :=
  ∀ i a, getAddr s i = some a →
    a = CACHE_NO_FRAME p ∨ (a < CACHE_NO_FRAME p ∧ a % s.MaxCacheFrames = i)

/-- The invariant of the cache between calls. -/
def Inv (p : CartParams) (s : CacheState) : Prop :=
  Configured s ∧ Placed p s ∧ ∃ l, Rep s l ∧ Occ p s l

/-- Record a successful `put` in the map from keys to the buffer last written. -/
def noteOp (p : CartParams) (w : Nat → Option (List Nat)) : CacheOp → Nat → Option (List Nat)
  | .put cart frm buf, k =>
    if frameAddr cart frm = some k ∧ k < CACHE_NO_FRAME p then some buf else w k
  | .get _ _, k => w k
  | .delete _ _, k => w k

/-- The buffer passed to the last accepted `put_cart_cache` call of `ops` on key `k`. -/
def lastWritten (p : CartParams) (ops : List CacheOp) : Nat → Option (List Nat) :=
  ops.foldl (noteOp p) (fun _ => none)

/-- Every occupied slot holds the first `CART_FRAME_SIZE` bytes of the buffer
that `w` records for its key. -/
def Written (p : CartParams) (s : CacheState) (w : Nat → Option (List Nat)) : Prop :=
  ∀ i a, getAddr s i = some a → a ≠ CACHE_NO_FRAME p →
    ∃ b, w a = some b ∧ p.CART_FRAME_SIZE ≤ b.length ∧
      getFrame s i = some (b.take p.CART_FRAME_SIZE)

/-- The state after `init_cart_cache` on `s0` followed by the calls `ops`. -/
def runFromInit (p : CartParams) (s0 : CacheState) (ops : List CacheOp) : Option CacheState :=
  (init_cart_cache p s0).bind (fun r => run p r.1 ops)

/-- The bytes a caller reads through the pointer returned by
`get_cart_cache p s cart frm`: `some none` for `NULL`. -/
def getPayload (p : CartParams) (s : CacheState) (cart frm : Nat) :
    Option (Option (List Nat)) :=
  (get_cart_cache p s cart frm).map (fun r => deref r.1 r.2)

/-- The payloads returned by the `get` calls of `ops`, in order (`none` for `NULL`). -/
def outputs (p : CartParams) : CacheState → List CacheOp → Option (List (Option (List Nat)))
  | _, [] => some []
  | s, .get cart frm :: ops =>
    (get_cart_cache p s cart frm).bind (fun r =>
      (outputs p r.1 ops).map (fun rest => deref r.1 r.2 :: rest))
  | s, .put cart frm buf :: ops =>
    (put_cart_cache p s cart frm buf).bind (fun r => outputs p r.1 ops)
  | s, .delete cart frm :: ops =>
    (delete_cart_cache p s cart frm).bind (fun r => outputs p r.1 ops)

/-- Record `idx` has been moved to the front of the recency list between `s`
and `t`: it is the head, it occurs once, and the other records keep their order. -/
def Promoted (s t : CacheState) (idx : Nat) : Prop :=
  t.head = some idx ∧
    ∃ l l2, lruList s = some l ∧ lruList t = some l2 ∧ l2.count idx = 1 ∧
      l2.filter (fun j => decide (j ≠ idx)) = l.filter (fun j => decide (j ≠ idx))

/-- A frame-sized buffer filled with the byte `c`. -/
def frameOf (c : Nat) : List Nat := List.replicate cartDefaults.CART_FRAME_SIZE c

/-- The state `init_cart_cache` leaves on a table of two records. -/
def cache2 : CacheState :=
  ⟨none, none, 0, 2, [⟨none, none, 65536, []⟩, ⟨none, none, 65536, []⟩]⟩

/-- The state after `put_cart_cache(1, 1, frameOf 65)` on `cache2`. -/
def cache2A : CacheState :=
  ⟨some 1, some 1, 0, 2, [⟨none, none, 65536, []⟩, ⟨none, none, 1, frameOf 65⟩]⟩

/-- `set_cart_cache_size`, lines 98-107.  The block returned by
`malloc(MaxCacheFrames * sizeof(CacheRecord))` is an argument: `ok` tells
whether the call succeeded and `garbage i` is the uninitialised content of its
record `i`.  A `NULL` table has no record. -/
def set_cart_cache_size (s : CacheState) (max_frames : Nat) (ok : Bool)
    (garbage : Nat → CacheRecord) : CacheState × Int :=
  let s1 : CacheState := { s with MaxCacheFrames := max_frames }
  let s2 : CacheState :=
    { s1 with Cache := if ok then (List.range s1.MaxCacheFrames).map garbage else [] }
  if ok = false then (s2, -1) else (s2, 0)

/-- The recency list of `s` is well formed: some list represents it. -/
def WellFormed (s : CacheState) : Prop := ∃ l, Rep s l

/-- A table of three records whose recency list is 0, 2, 1, from `head` to `tail`. -/
def cache3 : CacheState :=
  ⟨some 0, some 1, 0, 3,
    [⟨some 2, none, 3, frameOf 67⟩, ⟨none, some 2, 1, frameOf 65⟩,
      ⟨some 1, some 0, 2, frameOf 66⟩]⟩

/-- The address space of the header fits the machine types: the two bounds are
values the 16-bit index types can count up to, and `CACHE_NO_FRAME` is a
value of `int`. -/
def ParamsFit (p : CartParams) : Prop :=
  p.CART_MAX_CARTRIDGES ≤ 2 ^ 16 ∧ p.CART_CARTRIDGE_SIZE ≤ 2 ^ 16 ∧
    CACHE_NO_FRAME p ≤ 2 ^ 31 - 1

instance (p : CartParams) : Decidable (ParamsFit p) := by
  unfold ParamsFit; infer_instance

theorem nextOf_not_mem {l : List Nat} {i : Nat} (h : i ∉ l) : nextOf l i = none := by
  induction l with
  | nil => rfl
  | cons x xs ih =>
    simp only [List.mem_cons, not_or] at h
    simp [nextOf, Ne.symm h.1, ih h.2]

theorem prevOf_cons (x : Nat) (xs : List Nat) (i : Nat) :
    prevOf (x :: xs) i = if xs.head? = some i then some x else prevOf xs i := by
  cases xs with
  | nil => simp [prevOf]
  | cons y ys => simp [prevOf]

theorem prevOf_not_mem {l : List Nat} {i : Nat} (h : i ∉ l) : prevOf l i = none := by
  induction l with
  | nil => rfl
  | cons x xs ih =>
    simp only [List.mem_cons, not_or] at h
    rw [prevOf_cons, ih h.2]
    cases xs with
    | nil => simp
    | cons y ys =>
      simp only [List.mem_cons, not_or] at h
      simp [Ne.symm h.2.1]

theorem head?_mem {l : List Nat} {i : Nat} (h : l.head? = some i) : i ∈ l := by
  cases l with
  | nil => simp at h
  | cons x xs => simp at h; simp [h]

theorem nextOf_mem {l : List Nat} {i j : Nat} (h : nextOf l i = some j) : i ∈ l ∧ j ∈ l := by
  induction l with
  | nil => simp [nextOf] at h
  | cons x xs ih =>
    simp only [nextOf] at h
    split at h
    · next hx => exact ⟨by simp [hx], List.mem_cons_of_mem _ (head?_mem h)⟩
    · exact ⟨List.mem_cons_of_mem _ (ih h).1, List.mem_cons_of_mem _ (ih h).2⟩

theorem prevOf_mem {l : List Nat} {i j : Nat} (h : prevOf l i = some j) : i ∈ l ∧ j ∈ l := by
  induction l with
  | nil => simp [prevOf] at h
  | cons x xs ih =>
    rw [prevOf_cons] at h
    split at h
    · next hx =>
      simp at h
      exact ⟨List.mem_cons_of_mem _ (head?_mem hx), by simp [h]⟩
    · exact ⟨List.mem_cons_of_mem _ (ih h).1, List.mem_cons_of_mem _ (ih h).2⟩

/-- In a list without repetition, `j` follows `i` exactly when `i` precedes `j`. -/
theorem prevOf_eq_some_iff {l : List Nat} (hl : l.Nodup) (i j : Nat) :
    prevOf l j = some i ↔ nextOf l i = some j := by
  induction l with
  | nil => simp [prevOf, nextOf]
  | cons x xs ih =>
    rw [List.nodup_cons] at hl
    rw [prevOf_cons]
    simp only [nextOf]
    by_cases hh : xs.head? = some j
    · have hj : j ∈ xs := head?_mem hh
      by_cases hx : x = i
      · simp [hh, hx]
      · simp only [hh, if_true, Option.some.injEq, hx, if_false, false_iff]
        intro hn
        -- j is the head of xs and also follows i inside xs
        cases xs with
        | nil => simp at hh
        | cons y ys =>
          simp at hh
          subst hh
          have := (ih hl.2).2 hn
          rw [prevOf_cons] at this
          have hy : y ∉ ys := (List.nodup_cons.1 hl.2).1
          split at this
          · next h2 => exact hy (head?_mem h2)
          · exact hy (prevOf_mem this).1
    · by_cases hx : x = i
      · subst hx
        simp only [hh, if_false, if_true, iff_false]
        intro hp
        exact hl.1 (prevOf_mem hp).2
      · simp [hh, hx, ih hl.2]

theorem nextOf_ne_self {l : List Nat} (hl : l.Nodup) (i : Nat) : nextOf l i ≠ some i := by
  induction l with
  | nil => simp [nextOf]
  | cons x xs ih =>
    rw [List.nodup_cons] at hl
    simp only [nextOf]
    split
    · next hx => subst hx; intro h; exact hl.1 (head?_mem h)
    · exact ih hl.2

theorem prevOf_ne_self {l : List Nat} (hl : l.Nodup) (i : Nat) : prevOf l i ≠ some i := by
  intro h
  exact nextOf_ne_self hl i ((prevOf_eq_some_iff hl i i).1 h)

theorem prevOf_eq_none_iff {l : List Nat} (hl : l.Nodup) {r : Nat} (hr : r ∈ l) :
    prevOf l r = none ↔ l.head? = some r := by
  induction l with
  | nil => simp at hr
  | cons x xs ih =>
    rw [List.nodup_cons] at hl
    rw [prevOf_cons]
    by_cases hx : x = r
    · subst hx
      have : xs.head? ≠ some x := fun h => hl.1 (head?_mem h)
      simp [this, prevOf_not_mem hl.1]
    · have hr2 : r ∈ xs := by
        rcases List.mem_cons.1 hr with h | h
        · exact absurd h.symm hx
        · exact h
      by_cases hh : xs.head? = some r
      · simp [hh, hx]
      · simp [hh, hx, ih hl.2 hr2]

theorem getLast?_mem {l : List Nat} {i : Nat} (h : l.getLast? = some i) : i ∈ l :=
  List.mem_of_getLast?_eq_some h

theorem nextOf_eq_none_iff {l : List Nat} (hl : l.Nodup) {r : Nat} (hr : r ∈ l) :
    nextOf l r = none ↔ l.getLast? = some r := by
  induction l with
  | nil => simp at hr
  | cons x xs ih =>
    rw [List.nodup_cons] at hl
    simp only [nextOf]
    cases xs with
    | nil =>
      simp at hr
      simp [hr]
    | cons y ys =>
      rw [List.getLast?_cons_cons]
      by_cases hx : x = r
      · subst hx
        simp only [if_true, List.head?_cons, false_iff, reduceCtorEq]
        intro h
        exact hl.1 (getLast?_mem h)
      · have hr2 : r ∈ y :: ys := by
          rcases List.mem_cons.1 hr with h | h
          · exact absurd h.symm hx
          · exact h
        simp [hx, ih hl.2 hr2]

theorem head?_erase {l : List Nat} (hl : l.Nodup) (r : Nat) :
    (l.erase r).head? = if l.head? = some r then nextOf l r else l.head? := by
  cases l with
  | nil => simp
  | cons x xs =>
    by_cases hx : x = r
    · subst hx; simp [nextOf]
    · simp [List.erase_cons_tail, hx]

theorem nextOf_erase {l : List Nat} (hl : l.Nodup) (r i : Nat) :
    nextOf (l.erase r) i =
      if i = r then none else if nextOf l i = some r then nextOf l r else nextOf l i := by
  induction l with
  | nil => simp [nextOf]
  | cons x xs ih =>
    have hl2 := List.nodup_cons.1 hl
    by_cases hx : x = r
    · subst hx
      rw [List.erase_cons_head]
      by_cases hi : i = x
      · subst hi; simp [nextOf_not_mem hl2.1]
      · have h1 : nextOf (x :: xs) i = nextOf xs i := by simp [nextOf, Ne.symm hi]
        have h2 : nextOf xs i ≠ some x := fun h => hl2.1 (nextOf_mem h).2
        simp [hi, h1, h2]
    · rw [List.erase_cons_tail (by simpa using hx)]
      by_cases hi : x = i
      · subst hi
        have hne : ¬ x = r := hx
        simp only [nextOf, if_true, hne, if_false]
        rw [head?_erase hl2.2]
      · have hne : ¬ x = r := hx
        simp only [nextOf, hi, hne, if_false]
        exact ih hl2.2

theorem getLast?_erase {l : List Nat} (hl : l.Nodup) (r : Nat) :
    (l.erase r).getLast? = if l.getLast? = some r then prevOf l r else l.getLast? := by
  induction l with
  | nil => simp [prevOf]
  | cons x xs ih =>
    have hl2 := List.nodup_cons.1 hl
    by_cases hx : x = r
    · subst hx
      rw [List.erase_cons_head]
      cases xs with
      | nil => simp [prevOf]
      | cons y ys =>
        rw [List.getLast?_cons_cons]
        have : (y :: ys).getLast? ≠ some x := fun h => hl2.1 (getLast?_mem h)
        simp [this]
    · rw [List.erase_cons_tail (by simpa using hx)]
      cases xs with
      | nil => simp [hx]
      | cons y ys =>
        rw [List.getLast?_cons_cons, prevOf_cons]
        by_cases hy : y = r
        · subst hy
          rw [List.erase_cons_head]
          cases ys with
          | nil => simp
          | cons z zs =>
            have h3 := List.nodup_cons.1 hl2.2
            have : (z :: zs).getLast? ≠ some y := fun h => h3.1 (getLast?_mem h)
            simp [List.getLast?_cons_cons, this]
        · have h4 := ih hl2.2
          rw [List.erase_cons_tail (by simpa using hy)] at h4 ⊢
          rw [List.getLast?_cons_cons, h4]
          simp [hy]

theorem prevOf_erase {l : List Nat} (hl : l.Nodup) (r i : Nat) :
    prevOf (l.erase r) i =
      if i = r then none else if prevOf l i = some r then prevOf l r else prevOf l i := by
  induction l with
  | nil => simp [prevOf]
  | cons x xs ih =>
    have hl2 := List.nodup_cons.1 hl
    by_cases hx : x = r
    · subst hx
      rw [List.erase_cons_head]
      by_cases hi : i = x
      · subst hi; simp [prevOf_not_mem hl2.1]
      · rw [prevOf_cons, prevOf_cons]
        have h0 : prevOf xs x = none := prevOf_not_mem hl2.1
        have h1 : xs.head? ≠ some x := fun h => hl2.1 (head?_mem h)
        have h2 : prevOf xs i ≠ some x := fun h => hl2.1 (prevOf_mem h).2
        by_cases h3 : xs.head? = some i
        · simp [hi, h3, h0, h1]
          exact (prevOf_eq_none_iff hl2.2 (head?_mem h3)).2 h3
        · simp [hi, h3, h2]
    · have hne : ¬ x = r := hx
      rw [List.erase_cons_tail (by simpa using hx)]
      rw [prevOf_cons, prevOf_cons, prevOf_cons, head?_erase hl2.2, ih hl2.2]
      by_cases hi : i = r
      · subst hi
        have h1 : nextOf xs i ≠ some i := nextOf_ne_self hl2.2 i
        by_cases h2 : xs.head? = some i
        · simp [h2, h1]
        · simp [h2]
      · by_cases h2 : xs.head? = some r
        · have h3 : xs.head? ≠ some i := by
            rw [h2]; intro h; exact hi (Option.some.inj h).symm
          have h4 := prevOf_eq_some_iff hl2.2 r i
          have hi2 : ¬ r = i := fun h => hi h.symm
          by_cases h5 : nextOf xs r = some i
          · simp [hi, hi2, h2, h5, h4.2 h5]
          · have h6 : prevOf xs i ≠ some r := fun h => h5 (h4.1 h)
            simp [hi, hi2, h2, h5, h6]
        · by_cases h3 : xs.head? = some i
          · simp [hi, h2, h3, hne]
          · simp [hi, h2, h3]

theorem nextOf_cons (x : Nat) (xs : List Nat) (i : Nat) :
    nextOf (x :: xs) i = if i = x then xs.head? else nextOf xs i := by
  simp only [nextOf, eq_comm]

theorem prevOf_cons_new {r : Nat} {l : List Nat} (hr : r ∉ l) (i : Nat) :
    prevOf (r :: l) i =
      if i = r then none else if l.head? = some i then some r else prevOf l i := by
  rw [prevOf_cons]
  by_cases hi : i = r
  · subst hi
    have : l.head? ≠ some i := fun h => hr (head?_mem h)
    simp [this, prevOf_not_mem hr]
  · simp [hi]

theorem getLast?_cons_new (r : Nat) (l : List Nat) :
    (r :: l).getLast? = if l.getLast? = none then some r else l.getLast? := by
  cases l with
  | nil => simp
  | cons y ys =>
    rw [List.getLast?_cons_cons]
    simp [List.getLast?_eq_none_iff]

@[simp] theorem modRec_head (s : CacheState) (j : Nat) (f) : (modRec s j f).head = s.head := by
  unfold modRec; split <;> rfl
@[simp] theorem modRec_tail (s : CacheState) (j : Nat) (f) : (modRec s j f).tail = s.tail := by
  unfold modRec; split <;> rfl
@[simp] theorem modRec_max (s : CacheState) (j : Nat) (f) :
    (modRec s j f).MaxCacheFrames = s.MaxCacheFrames := by
  unfold modRec; split <;> rfl
@[simp] theorem modRec_size (s : CacheState) (j : Nat) (f) :
    (modRec s j f).LruListSize = s.LruListSize := by
  unfold modRec; split <;> rfl
@[simp] theorem modRec_length (s : CacheState) (j : Nat) (f) :
    (modRec s j f).Cache.length = s.Cache.length := by
  unfold modRec; split <;> simp

theorem modRec_getElem? (s : CacheState) (j : Nat) (f) (i : Nat) :
    (modRec s j f).Cache[i]? = if i = j then (s.Cache[j]?).map f else s.Cache[i]? := by
  unfold modRec
  split
  · next r hr =>
    have hj : j < s.Cache.length := (List.getElem?_eq_some.1 hr).1
    by_cases h : i = j
    · subst h; simp [hr, hj]
    · simp [h, List.getElem?_set_ne (Ne.symm h)]
  · next hr =>
    by_cases h : i = j
    · subst h; simp [hr]
    · simp [h]

theorem setNext_eq (s : CacheState) (j : Nat) (v : Option Nat) :
    setNext s j v = (s.Cache[j]?).map (fun _ => modRec s j (fun r => { r with next := v })) := by
  unfold setNext modRec
  cases h : s.Cache[j]? <;> simp

theorem setPrev_eq (s : CacheState) (j : Nat) (v : Option Nat) :
    setPrev s j v = (s.Cache[j]?).map (fun _ => modRec s j (fun r => { r with prev := v })) := by
  unfold setPrev modRec
  cases h : s.Cache[j]? <;> simp

theorem setAddr_eq (s : CacheState) (j : Nat) (a : Nat) :
    setAddr s j a =
      (s.Cache[j]?).map (fun _ => modRec s j (fun r => { r with frameAddress := a })) := by
  unfold setAddr modRec
  cases h : s.Cache[j]? <;> simp

theorem memcpyFrame_eq (s : CacheState) (j : Nat) (buf : List Nat) (n : Nat) :
    memcpyFrame s j buf n =
      if buf.length < n then (s.Cache[j]?).bind (fun _ => none)
      else (s.Cache[j]?).map (fun _ => modRec s j (fun r => { r with frame := buf.take n })) := by
  unfold memcpyFrame modRec
  cases h : s.Cache[j]? <;> simp

theorem getElem?_of_lt (s : CacheState) {i : Nat} (h : i < s.Cache.length) :
    ∃ r, s.Cache[i]? = some r := ⟨s.Cache[i], List.getElem?_eq_getElem h⟩

theorem LinkFn.setNext {s : CacheState} {nx pv : Nat → Option Nat} (h : LinkFn s nx pv)
    (j : Nat) (v : Option Nat) :
    LinkFn (modRec s j (fun r => { r with next := v })) (fun i => if i = j then v else nx i) pv := by
  intro i r hr
  rw [modRec_getElem?] at hr
  by_cases hij : i = j
  · subst hij
    simp only [if_true] at hr ⊢
    cases h0 : s.Cache[i]? with
    | none => simp [h0] at hr
    | some r0 =>
      simp [h0] at hr
      subst hr
      exact ⟨rfl, (h i r0 h0).2⟩
  · simp only [hij, if_false] at hr ⊢
    exact h i r hr

theorem LinkFn.setPrev {s : CacheState} {nx pv : Nat → Option Nat} (h : LinkFn s nx pv)
    (j : Nat) (v : Option Nat) :
    LinkFn (modRec s j (fun r => { r with prev := v })) nx (fun i => if i = j then v else pv i) := by
  intro i r hr
  rw [modRec_getElem?] at hr
  by_cases hij : i = j
  · subst hij
    simp only [if_true] at hr ⊢
    cases h0 : s.Cache[i]? with
    | none => simp [h0] at hr
    | some r0 =>
      simp [h0] at hr
      subst hr
      exact ⟨(h i r0 h0).1, rfl⟩
  · simp only [hij, if_false] at hr ⊢
    exact h i r hr

theorem LinkFn.congr {s : CacheState} {nx pv nx2 pv2 : Nat → Option Nat} (h : LinkFn s nx pv)
    (h1 : ∀ i, i < s.Cache.length → nx i = nx2 i)
    (h2 : ∀ i, i < s.Cache.length → pv i = pv2 i) : LinkFn s nx2 pv2 := by
  intro i r hr
  have hi : i < s.Cache.length := (List.getElem?_eq_some.1 hr).1
  rw [← h1 i hi, ← h2 i hi]
  exact h i r hr

theorem SameData.refl (s : CacheState) : SameData s s := ⟨rfl, rfl, rfl, fun _ => ⟨rfl, rfl⟩⟩

theorem SameData.trans {s t u : CacheState} (h1 : SameData s t) (h2 : SameData t u) :
    SameData s u :=
  ⟨h2.1.trans h1.1, h2.2.1.trans h1.2.1, h2.2.2.1.trans h1.2.2.1,
    fun i => ⟨((h2.2.2.2 i).1).trans (h1.2.2.2 i).1, ((h2.2.2.2 i).2).trans (h1.2.2.2 i).2⟩⟩

theorem sameData_modRec (s : CacheState) (j : Nat) (f : CacheRecord → CacheRecord)
    (hf : ∀ r, (f r).frameAddress = r.frameAddress ∧ (f r).frame = r.frame) :
    SameData s (modRec s j f) := by
  refine ⟨by simp, by simp, by simp, fun i => ?_⟩
  unfold getAddr getFrame
  rw [modRec_getElem?]
  by_cases hij : i = j
  · subst hij
    cases h0 : s.Cache[i]? <;> simp [hf]
  · simp [hij]

theorem SameData.head (s : CacheState) (v : Option Nat) : SameData s { s with head := v } :=
  ⟨rfl, rfl, rfl, fun _ => ⟨rfl, rfl⟩⟩

theorem SameData.tail (s : CacheState) (v : Option Nat) : SameData s { s with tail := v } :=
  ⟨rfl, rfl, rfl, fun _ => ⟨rfl, rfl⟩⟩

theorem getNext_of {s : CacheState} {i : Nat} {r : CacheRecord} (h : s.Cache[i]? = some r) :
    getNext s i = some r.next := by simp [getNext, h]

theorem getPrev_of {s : CacheState} {i : Nat} {r : CacheRecord} (h : s.Cache[i]? = some r) :
    getPrev s i = some r.prev := by simp [getPrev, h]

theorem setNext_some {s : CacheState} {j : Nat} (h : j < s.Cache.length) (v : Option Nat) :
    setNext s j v = some (modRec s j (fun r => { r with next := v })) := by
  obtain ⟨r, hr⟩ := getElem?_of_lt s h
  simp [setNext_eq, hr]

theorem setPrev_some {s : CacheState} {j : Nat} (h : j < s.Cache.length) (v : Option Nat) :
    setPrev s j v = some (modRec s j (fun r => { r with prev := v })) := by
  obtain ⟨r, hr⟩ := getElem?_of_lt s h
  simp [setPrev_eq, hr]

theorem setAddr_some {s : CacheState} {j : Nat} (h : j < s.Cache.length) (a : Nat) :
    setAddr s j a = some (modRec s j (fun r => { r with frameAddress := a })) := by
  obtain ⟨r, hr⟩ := getElem?_of_lt s h
  simp [setAddr_eq, hr]

theorem getNext_linkFn {s : CacheState} {nx pv : Nat → Option Nat} (hL : LinkFn s nx pv)
    {i : Nat} (hi : i < s.Cache.length) : getNext s i = some (nx i) := by
  obtain ⟨r, hr⟩ := getElem?_of_lt s hi
  rw [getNext_of hr, (hL i r hr).1]

theorem getPrev_linkFn {s : CacheState} {nx pv : Nat → Option Nat} (hL : LinkFn s nx pv)
    {i : Nat} (hi : i < s.Cache.length) : getPrev s i = some (pv i) := by
  obtain ⟨r, hr⟩ := getElem?_of_lt s hi
  rw [getPrev_of hr, (hL i r hr).2]

theorem LinkFn.setHead {s : CacheState} {nx pv : Nat → Option Nat} (h : LinkFn s nx pv)
    (v : Option Nat) : LinkFn { s with head := v } nx pv := h

theorem LinkFn.setTail {s : CacheState} {nx pv : Nat → Option Nat} (h : LinkFn s nx pv)
    (v : Option Nat) : LinkFn { s with tail := v } nx pv := h

theorem remove_from_lru_rep {s : CacheState} {l : List Nat} (hR : Rep s l) {r : Nat}
    (hr : r < s.Cache.length) :
    ∃ t, remove_from_lru s r = some t ∧ SameData s t ∧
      Rep t (if nextOf l r = none ∧ prevOf l r = none then l else l.erase r) := by
  obtain ⟨hnd, hbd, hhead, htail, hlinks⟩ := hR
  have hL : LinkFn s (nextOf l) (prevOf l) := hlinks
  have hgn := getNext_linkFn hL hr
  have hgp := getPrev_linkFn hL hr
  by_cases hnone : nextOf l r = none ∧ prevOf l r = none
  · refine ⟨s, ?_, SameData.refl s, ?_⟩
    · simp [remove_from_lru, hgn, hgp, hnone]
    · rw [if_pos hnone]; exact ⟨hnd, hbd, hhead, htail, hlinks⟩
  · rw [if_neg hnone]
    have hcond : nextOf l r ≠ none ∨ prevOf l r ≠ none := by
      by_contra hc
      push_neg at hc
      exact hnone hc
    have hrl : r ∈ l := by
      rcases hcond with h | h
      · obtain ⟨j, hj⟩ := Option.ne_none_iff_exists'.1 h
        exact (nextOf_mem hj).1
      · obtain ⟨j, hj⟩ := Option.ne_none_iff_exists'.1 h
        exact (prevOf_mem hj).1
    simp only [remove_from_lru, hgn, hgp, Option.bind_eq_bind, Option.some_bind, if_pos hcond]
    -- first assignment: the predecessor, or `head`, skips `r`
    obtain ⟨s1, hs1, hd1, hlen1, htl1, hhd1, hL1⟩ : ∃ s1,
        (match prevOf l r with
          | some q => setNext s q (nextOf l r)
          | none => pure { s with head := nextOf l r }) = some s1 ∧
        SameData s s1 ∧ s1.Cache.length = s.Cache.length ∧ s1.tail = s.tail ∧
        s1.head = (if prevOf l r = none then nextOf l r else s.head) ∧
        LinkFn s1 (fun i => if prevOf l r = some i then nextOf l r else nextOf l i)
          (prevOf l) := by
      cases hp : prevOf l r with
      | none =>
        refine ⟨{ s with head := nextOf l r }, rfl, SameData.head s _, rfl, rfl, by simp, ?_⟩
        simpa using hL.setHead _
      | some q =>
        have hq : q < s.Cache.length := hbd q (prevOf_mem hp).2
        refine ⟨modRec s q (fun x => { x with next := nextOf l r }), setNext_some hq _,
          sameData_modRec s q _ (fun _ => ⟨rfl, rfl⟩), by simp, by simp, by simp, ?_⟩
        refine (hL.setNext q (nextOf l r)).congr (fun i _ => ?_) (fun _ _ => rfl)
        by_cases hi : i = q
        · simp [hi]
        · have : ¬ q = i := fun h => hi h.symm
          simp [hi, this]
    rw [hs1, Option.some_bind]
    have hgn1 : getNext s1 r = some (nextOf l r) := by
      rw [getNext_linkFn hL1 (hlen1 ▸ hr)]
      simp [prevOf_ne_self hnd r]
    have hgp1 : getPrev s1 r = some (prevOf l r) := getPrev_linkFn hL1 (hlen1 ▸ hr)
    rw [hgn1, Option.some_bind]
    -- second assignment: the successor, or `tail`, skips `r`
    obtain ⟨s2, hs2, hd2, hlen2, htl2, hhd2, hL2⟩ : ∃ s2,
        (match nextOf l r with
          | some q => (getPrev s1 r).bind fun v => setPrev s1 q v
          | none => (getPrev s1 r).bind fun v => pure { s1 with tail := v }) = some s2 ∧
        SameData s1 s2 ∧ s2.Cache.length = s1.Cache.length ∧
        s2.tail = (if nextOf l r = none then prevOf l r else s1.tail) ∧
        s2.head = s1.head ∧
        LinkFn s2 (fun i => if prevOf l r = some i then nextOf l r else nextOf l i)
          (fun i => if nextOf l r = some i then prevOf l r else prevOf l i) := by
      cases hn : nextOf l r with
      | none =>
        refine ⟨{ s1 with tail := prevOf l r }, by simp [hgp1], SameData.tail s1 _, rfl,
          by simp, rfl, ?_⟩
        simpa [hn] using hL1.setTail _
      | some q =>
        have hq : q < s1.Cache.length := hlen1 ▸ hbd q (nextOf_mem hn).2
        refine ⟨modRec s1 q (fun x => { x with prev := prevOf l r }),
          by simp only [hgp1, Option.some_bind]; exact setPrev_some hq _,
          sameData_modRec s1 q _ (fun _ => ⟨rfl, rfl⟩), by simp, by simp, by simp, ?_⟩
        refine (hL1.setPrev q (prevOf l r)).congr (fun i _ => ?_) (fun i _ => ?_)
        · simp [hn]
        · by_cases hi : i = q
          · simp [hi]
          · have : ¬ q = i := fun h => hi h.symm
            simp [hi, this]
    rw [hs2, Option.some_bind]
    have hr2 : r < s2.Cache.length := by rw [hlen2, hlen1]; exact hr
    rw [setNext_some hr2, Option.some_bind, setPrev_some (by simpa using hr2)]
    refine ⟨modRec (modRec s2 r (fun x => { x with next := none })) r
      (fun x => { x with prev := none }), rfl, ?_, ?_⟩
    · have h3 : SameData s2 (modRec s2 r (fun x => { x with next := none })) :=
        sameData_modRec s2 r _ (fun _ => ⟨rfl, rfl⟩)
      have h4 : SameData (modRec s2 r (fun x => { x with next := none }))
          (modRec (modRec s2 r (fun x => { x with next := none })) r
            (fun x => { x with prev := none })) :=
        sameData_modRec _ r _ (fun _ => ⟨rfl, rfl⟩)
      exact (hd1.trans hd2).trans (h3.trans h4)
    · refine ⟨hnd.erase r, fun i hi => ?_, ?_, ?_, ?_⟩
      · simpa [hlen2, hlen1] using hbd i (List.mem_of_mem_erase hi)
      · simp only [modRec_head, hhd2, hhd1, hhead, head?_erase hnd r]
        by_cases h : prevOf l r = none
        · simp [h, (prevOf_eq_none_iff hnd hrl).1 h]
        · have h2 : l.head? ≠ some r := fun h3 => h ((prevOf_eq_none_iff hnd hrl).2 h3)
          simp [h, h2]
      · simp only [modRec_tail, htl2, htl1, htail, getLast?_erase hnd r]
        by_cases h : nextOf l r = none
        · simp [h, (nextOf_eq_none_iff hnd hrl).1 h]
        · have h2 : l.getLast? ≠ some r := fun h3 => h ((nextOf_eq_none_iff hnd hrl).2 h3)
          simp [h, h2]
      · refine ((hL2.setNext r none).setPrev r none).congr (fun i _ => ?_) (fun i _ => ?_)
        · rw [nextOf_erase hnd r i]
          by_cases hi : i = r
          · simp [hi]
          · simp only [hi, if_false]
            by_cases h1 : prevOf l r = some i
            · simp [h1, (prevOf_eq_some_iff hnd i r).1 h1]
            · have h2 : nextOf l i ≠ some r := fun h => h1 ((prevOf_eq_some_iff hnd i r).2 h)
              simp [h1, h2]
        · rw [prevOf_erase hnd r i]
          by_cases hi : i = r
          · simp [hi]
          · simp only [hi, if_false]
            by_cases h1 : nextOf l r = some i
            · simp [h1, (prevOf_eq_some_iff hnd r i).2 h1]
            · have h2 : prevOf l i ≠ some r := fun h => h1 ((prevOf_eq_some_iff hnd r i).1 h)
              simp [h1, h2]

theorem head?_eq_none {l : List Nat} (h : l.head? = none) : l = [] := by
  cases l with
  | nil => rfl
  | cons x xs => simp at h

theorem put_at_lru_head_rep {s : CacheState} {l : List Nat} (hR : Rep s l) {r : Nat}
    (hr : r < s.Cache.length) :
    ∃ t, put_at_lru_head s r = some t ∧ SameData s t ∧ Rep t (r :: l.erase r) := by
  by_cases hh : s.head = some r
  · refine ⟨s, by simp [put_at_lru_head, hh], SameData.refl s, ?_⟩
    have h1 : l.head? = some r := hR.2.2.1 ▸ hh
    cases l with
    | nil => simp at h1
    | cons x xs =>
      simp at h1
      subst h1
      simpa using hR
  · obtain ⟨s1, hs1, hd1, hR1⟩ := remove_from_lru_rep hR hr
    have hnd := hR.1
    have hl1 : (if nextOf l r = none ∧ prevOf l r = none then l else l.erase r) = l.erase r := by
      split
      · next hc =>
        have hnm : r ∉ l := by
          intro hm
          exact hh (hR.2.2.1.trans ((prevOf_eq_none_iff hnd hm).1 hc.2))
        exact (List.erase_of_not_mem hnm).symm
      · rfl
    rw [hl1] at hR1
    have hr1 : r ∉ l.erase r := fun h => (List.Nodup.mem_erase_iff hnd).1 h |>.1 rfl
    obtain ⟨hnd1, hbd1, hhead1, htail1, hlinks1⟩ := hR1
    have hL1 : LinkFn s1 (nextOf (l.erase r)) (prevOf (l.erase r)) := hlinks1
    have hlen1 : s1.Cache.length = s.Cache.length := hd1.2.2.1
    simp only [put_at_lru_head, if_neg hh, hs1, Option.bind_eq_bind, Option.some_bind]
    cases hh1 : (l.erase r).head? with
    | none =>
      rw [hhead1, hh1]
      have hnil := head?_eq_none hh1
      refine ⟨{ s1 with head := some r, tail := some r }, rfl,
        hd1.trans ((SameData.head s1 _).trans (SameData.tail _ _)), ?_⟩
      rw [hnil] at hL1 ⊢
      refine ⟨by simp, by simpa [hlen1] using hr, rfl, rfl, ?_⟩
      refine @LinkFn.congr { s1 with head := some r, tail := some r } _ _ _ _ hL1
        (fun i _ => ?_) (fun i _ => ?_)
      · simp [nextOf]
      · simp [prevOf]
    | some h =>
      rw [hhead1, hh1]
      have hhm : h ∈ l.erase r := head?_mem hh1
      have hh_lt : h < s1.Cache.length := hbd1 h hhm
      have hhr : h ≠ r := fun e => hr1 (e ▸ hhm)
      simp only [setPrev_some hh_lt, Option.some_bind, modRec_head, hhead1, hh1]
      rw [setNext_some (by simpa [hlen1] using hr)]
      simp only [Option.some_bind, Option.pure_def]
      refine ⟨_, rfl, ?_, ?_⟩
      · have h3 : SameData s1 (modRec s1 h (fun x => { x with prev := some r })) :=
          sameData_modRec s1 h _ (fun _ => ⟨rfl, rfl⟩)
        have h4 : SameData (modRec s1 h (fun x => { x with prev := some r }))
            (modRec (modRec s1 h (fun x => { x with prev := some r })) r
              (fun x => { x with next := some h })) :=
          sameData_modRec _ r _ (fun _ => ⟨rfl, rfl⟩)
        exact hd1.trans (h3.trans (h4.trans (SameData.head _ _)))
      · refine ⟨List.nodup_cons.2 ⟨hr1, hnd1⟩, ?_, rfl, ?_, ?_⟩
        · intro i hi
          rcases List.mem_cons.1 hi with h5 | h5
          · simpa [h5, hlen1] using hr
          · simpa using hbd1 i h5
        · simp only [modRec_tail, htail1, getLast?_cons_new]
          have : (l.erase r).getLast? ≠ none := by
            intro h6
            have := List.getLast?_eq_none_iff.1 h6
            rw [this] at hhm
            simp at hhm
          simp [this]
        · refine LinkFn.setHead (((hL1.setPrev h (some r)).setNext r (some h)).congr
            (fun i _ => ?_) (fun i _ => ?_)) _
          · rw [nextOf_cons, hh1]
          · rw [prevOf_cons_new hr1, hh1]
            by_cases hi : i = r
            · subst hi
              have h7 : ¬ i = h := fun e => hhr e.symm
              simp [h7, prevOf_not_mem hr1]
            · by_cases hi2 : i = h
              · simp [hi2, hhr]
              · have : ¬ h = i := fun e => hi2 e.symm
                simp [hi, hi2, this]

theorem getAddr_modRec (s : CacheState) (j : Nat) (f : CacheRecord → CacheRecord) (i : Nat) :
    getAddr (modRec s j f) i =
      if i = j then (s.Cache[j]?).map (fun r => (f r).frameAddress) else getAddr s i := by
  unfold getAddr
  rw [modRec_getElem?]
  by_cases h : i = j
  · subst h; cases s.Cache[i]? <;> simp
  · simp [h]

theorem getFrame_modRec (s : CacheState) (j : Nat) (f : CacheRecord → CacheRecord) (i : Nat) :
    getFrame (modRec s j f) i =
      if i = j then (s.Cache[j]?).map (fun r => (f r).frame) else getFrame s i := by
  unfold getFrame
  rw [modRec_getElem?]
  by_cases h : i = j
  · subst h; cases s.Cache[i]? <;> simp
  · simp [h]

theorem rep_modRec {s : CacheState} {l : List Nat} (h : Rep s l) (j : Nat)
    (f : CacheRecord → CacheRecord)
    (hf : ∀ r, (f r).next = r.next ∧ (f r).prev = r.prev) : Rep (modRec s j f) l := by
  obtain ⟨h1, h2, h3, h4, h5⟩ := h
  refine ⟨h1, by simpa using h2, by simpa using h3, by simpa using h4, ?_⟩
  intro i r hr
  rw [modRec_getElem?] at hr
  by_cases hij : i = j
  · subst hij
    cases h0 : s.Cache[i]? with
    | none => simp [h0] at hr
    | some r0 =>
      simp [h0] at hr
      subst hr
      rw [(hf r0).1, (hf r0).2]
      exact h5 i r0 h0
  · simp only [hij, if_false] at hr
    exact h5 i r hr

theorem getAddr_isSome {s : CacheState} {i : Nat} (h : i < s.Cache.length) :
    ∃ a, getAddr s i = some a := by
  obtain ⟨r, hr⟩ := getElem?_of_lt s h
  exact ⟨r.frameAddress, by simp [getAddr, hr]⟩

theorem getAddr_lt {s : CacheState} {i a : Nat} (h : getAddr s i = some a) :
    i < s.Cache.length := by
  unfold getAddr at h
  cases h0 : s.Cache[i]? with
  | none => simp [h0] at h
  | some r => exact (List.getElem?_eq_some.1 h0).1

theorem memcpyFrame_some {s : CacheState} {j : Nat} (h : j < s.Cache.length) {buf : List Nat}
    {n : Nat} (hb : n ≤ buf.length) :
    memcpyFrame s j buf n = some (modRec s j (fun r => { r with frame := buf.take n })) := by
  obtain ⟨r, hr⟩ := getElem?_of_lt s h
  simp [memcpyFrame_eq, hr, Nat.not_lt.2 hb]

theorem memcpyFrame_short (s : CacheState) (j : Nat) {buf : List Nat} {n : Nat}
    (hb : buf.length < n) : memcpyFrame s j buf n = none := by
  rw [memcpyFrame_eq, if_pos hb]
  cases s.Cache[j]? <;> rfl

/-- What a successful `put_cart_cache` does. -/
theorem put_ok (p : CartParams) {s : CacheState} (hI : Inv p s) (hN : 0 < s.MaxCacheFrames)
    (cart frm : Nat) {k : Nat} (hfa : frameAddr cart frm = some k) (buf : List Nat) (hk : k < CACHE_NO_FRAME p)
    (hb : p.CART_FRAME_SIZE ≤ buf.length) :
    ∃ t, put_cart_cache p s cart frm buf = some (t, 0) ∧ Inv p t ∧
      t.MaxCacheFrames = s.MaxCacheFrames ∧
      getAddr t (k % s.MaxCacheFrames) = some (k) ∧
      getFrame t (k % s.MaxCacheFrames) = some (buf.take p.CART_FRAME_SIZE) ∧
      (∀ i, i ≠ k % s.MaxCacheFrames →
        getAddr t i = getAddr s i ∧ getFrame t i = getFrame s i) ∧
      (∀ l, Rep s l → Rep t
        ((k % s.MaxCacheFrames) ::
          l.erase (k % s.MaxCacheFrames))) := by
  obtain ⟨hC, hP, l, hR, hO⟩ := hI
  have hC' : s.Cache.length = s.MaxCacheFrames := hC
  set idx := k % s.MaxCacheFrames with hidx
  have hi : idx < s.Cache.length := by rw [hC']; exact Nat.mod_lt _ hN
  obtain ⟨rec, hrec⟩ := getElem?_of_lt s hi
  let s1 := modRec s idx (fun r => { r with frameAddress := k })
  let s2 := modRec s1 idx (fun r => { r with frame := buf.take p.CART_FRAME_SIZE })
  have e1 : setAddr s idx k = some s1 := setAddr_some hi k
  have e2 : memcpyFrame s1 idx buf p.CART_FRAME_SIZE = some s2 :=
    memcpyFrame_some (by simpa [s1] using hi) hb
  have hrep2 : ∀ l, Rep s l → Rep s2 l := fun l h =>
    rep_modRec (rep_modRec h idx (fun r => { r with frameAddress := k })
      (fun _ => ⟨rfl, rfl⟩)) idx (fun r => { r with frame := buf.take p.CART_FRAME_SIZE })
      (fun _ => ⟨rfl, rfl⟩)
  have hi2 : idx < s2.Cache.length := by simpa [s1, s2] using hi
  obtain ⟨t, ht, hd, hRt⟩ := put_at_lru_head_rep (hrep2 l hR) hi2
  have ha2 : ∀ i, getAddr s2 i = if i = idx then some k else getAddr s i := by
    intro i
    simp only [s2, s1, getAddr_modRec, modRec_getElem?]
    by_cases h : i = idx
    · simp [h, hrec]
    · simp [h]
  have hf2 : ∀ i, getFrame s2 i =
      if i = idx then some (buf.take p.CART_FRAME_SIZE) else getFrame s i := by
    intro i
    simp only [s2, s1, getFrame_modRec, modRec_getElem?]
    by_cases h : i = idx
    · simp [h, hrec]
    · simp [h]
  have hmax : t.MaxCacheFrames = s.MaxCacheFrames := by
    rw [hd.1]; simp [s2, s1]
  have hlen : t.Cache.length = s.Cache.length := by
    rw [hd.2.2.1]; simp [s2, s1]
  refine ⟨t, ?_, ⟨?_, ?_, _, hRt, ?_⟩, hmax, ?_, ?_, ?_, ?_⟩
  · have hk' : ¬ (k ≥ CACHE_NO_FRAME p) := Nat.not_le.2 hk
    have hN' : ¬ (s.MaxCacheFrames = 0) := Nat.pos_iff_ne_zero.1 hN
    simp only [put_cart_cache, hfa, if_neg hk', if_neg hN', ← hidx, e1, e2, ht,
      Option.bind_eq_bind, Option.some_bind, Option.pure_def]
  · show t.Cache.length = t.MaxCacheFrames
    rw [hlen, hmax]; exact hC'
  · intro i a hia
    rw [(hd.2.2.2 i).1, ha2] at hia
    rw [hmax]
    by_cases h : i = idx
    · simp [h] at hia
      subst hia
      exact Or.inr ⟨hk, h ▸ rfl⟩
    · simp only [h, if_false] at hia
      exact hP i a hia
  · intro i a hia hne
    rw [(hd.2.2.2 i).1, ha2] at hia
    by_cases h : i = idx
    · simp [h]
    · simp only [h, if_false] at hia
      exact List.mem_cons_of_mem _ ((List.mem_erase_of_ne h).2 (hO i a hia hne))
  · rw [(hd.2.2.2 idx).1, ha2]; simp
  · rw [(hd.2.2.2 idx).2, hf2]; simp
  · intro i hne
    rw [(hd.2.2.2 i).1, (hd.2.2.2 i).2, ha2, hf2]
    simp [hne]
  · intro l' hl'
    obtain ⟨t', ht', _, hRt'⟩ := put_at_lru_head_rep (hrep2 l' hl') hi2
    rw [ht] at ht'
    cases ht'
    exact hRt'

theorem SameData.inv_of {p : CartParams} {s t : CacheState} (hd : SameData s t)
    (hC : Configured s) (hP : Placed p s) : Configured t ∧ Placed p t := by
  refine ⟨?_, ?_⟩
  · show t.Cache.length = t.MaxCacheFrames
    rw [hd.2.2.1, hd.1]; exact hC
  · intro i a hia
    rw [(hd.2.2.2 i).1] at hia
    rw [hd.1]
    exact hP i a hia

/-- What `get_cart_cache` does on a hit. -/
theorem get_hit (p : CartParams) {s : CacheState} (hI : Inv p s) (hN : 0 < s.MaxCacheFrames)
    (cart frm : Nat) {k : Nat} (hfa : frameAddr cart frm = some k) (hk : k < CACHE_NO_FRAME p)
    (ha : getAddr s (k % s.MaxCacheFrames) = some (k)) :
    ∃ t, get_cart_cache p s cart frm = some (t, some (k % s.MaxCacheFrames)) ∧
      Inv p t ∧ SameData s t ∧
      (∀ l, Rep s l → Rep t
        ((k % s.MaxCacheFrames) ::
          l.erase (k % s.MaxCacheFrames))) := by
  obtain ⟨hC, hP, l, hR, hO⟩ := hI
  have hi := getAddr_lt ha
  obtain ⟨t, ht, hd, hRt⟩ := put_at_lru_head_rep hR hi
  have hk' : ¬ (k ≥ CACHE_NO_FRAME p) := Nat.not_le.2 hk
  have hN' : ¬ (s.MaxCacheFrames = 0) := Nat.pos_iff_ne_zero.1 hN
  refine ⟨t, ?_, ⟨(hd.inv_of hC hP).1, (hd.inv_of hC hP).2, _, hRt, ?_⟩, hd, ?_⟩
  · simp only [get_cart_cache, hfa, if_neg hk', if_neg hN', ha, ht, Option.bind_eq_bind,
      Option.some_bind, if_true, Option.pure_def]
  · intro i a hia hne
    rw [(hd.2.2.2 i).1] at hia
    by_cases h : i = k % s.MaxCacheFrames
    · simp [h]
    · exact List.mem_cons_of_mem _ ((List.mem_erase_of_ne h).2 (hO i a hia hne))
  · intro l' hl'
    obtain ⟨t', ht', _, hRt'⟩ := put_at_lru_head_rep hl' hi
    rw [ht] at ht'
    cases ht'
    exact hRt'

/-- What `get_cart_cache` does on a miss. -/
theorem get_miss (p : CartParams) {s : CacheState} (hC : Configured s)
    (hN : 0 < s.MaxCacheFrames) (cart frm : Nat) {k : Nat} (hfa : frameAddr cart frm = some k)
    (ha : getAddr s (k % s.MaxCacheFrames) ≠ some (k)) :
    get_cart_cache p s cart frm = some (s, none) := by
  simp only [get_cart_cache, hfa]
  by_cases hk : k ≥ CACHE_NO_FRAME p
  · simp [hk]
  · have hN' : ¬ (s.MaxCacheFrames = 0) := Nat.pos_iff_ne_zero.1 hN
    have hi : k % s.MaxCacheFrames < s.Cache.length := by
      rw [hC]; exact Nat.mod_lt _ hN
    obtain ⟨a, haa⟩ := getAddr_isSome hi
    have hne : ¬ a = k := fun e => ha (e ▸ haa)
    simp only [if_neg hk, if_neg hN', haa, Option.bind_eq_bind, Option.some_bind, if_neg hne,
      Option.pure_def]

/-- What `delete_cart_cache` does on an absent key. -/
theorem delete_miss (p : CartParams) {s : CacheState} (hC : Configured s)
    (hN : 0 < s.MaxCacheFrames) (cart frm : Nat) {k : Nat} (hfa : frameAddr cart frm = some k)
    (ha : k ≥ CACHE_NO_FRAME p ∨
      getAddr s (k % s.MaxCacheFrames) ≠ some (k)) :
    delete_cart_cache p s cart frm = some (s, none) := by
  simp only [delete_cart_cache, hfa]
  by_cases hk : k ≥ CACHE_NO_FRAME p
  · simp [hk]
  · have ha' := ha.resolve_left hk
    have hN' : ¬ (s.MaxCacheFrames = 0) := Nat.pos_iff_ne_zero.1 hN
    have hi : k % s.MaxCacheFrames < s.Cache.length := by
      rw [hC]; exact Nat.mod_lt _ hN
    obtain ⟨a, haa⟩ := getAddr_isSome hi
    have hne : ¬ a = k := fun e => ha' (e ▸ haa)
    simp only [if_neg hk, if_neg hN', haa, Option.bind_eq_bind, Option.some_bind, if_neg hne,
      Option.pure_def]

/-- What `delete_cart_cache` does on a present key. -/
theorem delete_hit (p : CartParams) {s : CacheState} (hI : Inv p s) (hN : 0 < s.MaxCacheFrames)
    (cart frm : Nat) {k : Nat} (hfa : frameAddr cart frm = some k) (hk : k < CACHE_NO_FRAME p)
    (ha : getAddr s (k % s.MaxCacheFrames) = some (k)) :
    ∃ t, delete_cart_cache p s cart frm =
        some (t, some (k % s.MaxCacheFrames)) ∧
      Inv p t ∧ t.MaxCacheFrames = s.MaxCacheFrames ∧
      getAddr t (k % s.MaxCacheFrames) = some (CACHE_NO_FRAME p) ∧
      (∀ i, getFrame t i = getFrame s i) ∧
      (∀ i, i ≠ k % s.MaxCacheFrames → getAddr t i = getAddr s i) ∧
      (∀ l, Rep s l → Rep t
        (if nextOf l (k % s.MaxCacheFrames) = none ∧
            prevOf l (k % s.MaxCacheFrames) = none then l
          else l.erase (k % s.MaxCacheFrames))) := by
  obtain ⟨hC, hP, l, hR, hO⟩ := hI
  set idx := k % s.MaxCacheFrames with hidx
  have hi := getAddr_lt ha
  obtain ⟨s1, hs1, hd, hR1⟩ := remove_from_lru_rep hR hi
  have hi1 : idx < s1.Cache.length := by rw [hd.2.2.1]; exact hi
  obtain ⟨rec, hrec⟩ := getElem?_of_lt s1 hi1
  have hk' : ¬ (k ≥ CACHE_NO_FRAME p) := Nat.not_le.2 hk
  have hN' : ¬ (s.MaxCacheFrames = 0) := Nat.pos_iff_ne_zero.1 hN
  have hat : ∀ i, getAddr (modRec s1 idx (fun r => { r with frameAddress := CACHE_NO_FRAME p })) i
      = if i = idx then some (CACHE_NO_FRAME p) else getAddr s i := by
    intro i
    rw [getAddr_modRec, (hd.2.2.2 i).1]
    by_cases h : i = idx
    · simp [h, hrec]
    · simp [h]
  have hft : ∀ i, getFrame (modRec s1 idx (fun r => { r with frameAddress := CACHE_NO_FRAME p })) i
      = getFrame s i := by
    intro i
    rw [getFrame_modRec, ← (hd.2.2.2 i).2]
    by_cases h : i = idx
    · subst h; simp [getFrame, hrec]
    · simp [h]
  refine ⟨modRec s1 idx (fun r => { r with frameAddress := CACHE_NO_FRAME p }), ?_,
    ⟨?_, ?_, _, rep_modRec hR1 idx _ (fun _ => ⟨rfl, rfl⟩), ?_⟩, ?_, ?_, hft, ?_, ?_⟩
  · simp only [delete_cart_cache, hfa, if_neg hk', if_neg hN', ← hidx, ha, hs1, setAddr_some hi1,
      Option.bind_eq_bind, Option.some_bind, if_true, Option.pure_def]
  · show (modRec s1 idx _).Cache.length = (modRec s1 idx _).MaxCacheFrames
    rw [modRec_length, modRec_max, hd.2.2.1, hd.1]; exact hC
  · intro i a hia
    rw [hat] at hia
    rw [modRec_max, hd.1]
    by_cases h : i = idx
    · simp [h] at hia
      exact Or.inl hia.symm
    · simp only [h, if_false] at hia
      exact hP i a hia
  · intro i a hia hne
    rw [hat] at hia
    by_cases h : i = idx
    · simp [h] at hia
      exact absurd hia.symm hne
    · simp only [h, if_false] at hia
      have hm := hO i a hia hne
      split
      · exact hm
      · exact (List.mem_erase_of_ne h).2 hm
  · rw [modRec_max, hd.1]
  · rw [hat]; simp
  · intro i hne
    rw [hat]; simp [hne]
  · intro l' hl'
    obtain ⟨s1', hs1', _, hR1'⟩ := remove_from_lru_rep hl' hi
    rw [hs1] at hs1'
    cases hs1'
    exact rep_modRec hR1' idx _ (fun _ => ⟨rfl, rfl⟩)

theorem init_loop_spec (p : CartParams) (k : Nat) :
    ∀ (i : Nat) (s : CacheState), i + k ≤ s.Cache.length →
      ∃ t, init_loop p k i s = some t ∧ t.head = s.head ∧ t.tail = s.tail ∧
        t.MaxCacheFrames = s.MaxCacheFrames ∧ t.Cache.length = s.Cache.length ∧
        ∀ j r, t.Cache[j]? = some r →
          if i ≤ j ∧ j < i + k then
            r.frameAddress = CACHE_NO_FRAME p ∧ r.next = none ∧ r.prev = none
          else s.Cache[j]? = some r := by
  induction k with
  | zero =>
    intro i s _
    refine ⟨s, rfl, rfl, rfl, rfl, rfl, fun j r hr => ?_⟩
    have : ¬ (i ≤ j ∧ j < i + 0) := by omega
    rw [if_neg this]; exact hr
  | succ k ih =>
    intro i s hle
    have hi : i < s.Cache.length := by omega
    let s1 := modRec s i (fun r => { r with frameAddress := CACHE_NO_FRAME p })
    let s2 := modRec s1 i (fun r => { r with next := none })
    let s3 := modRec s2 i (fun r => { r with prev := none })
    have e1 : setAddr s i (CACHE_NO_FRAME p) = some s1 := setAddr_some hi _
    have e2 : setNext s1 i none = some s2 := setNext_some (by simpa [s1] using hi) _
    have e3 : setPrev s2 i none = some s3 := setPrev_some (by simpa [s1, s2] using hi) _
    have hlen3 : s3.Cache.length = s.Cache.length := by simp [s1, s2, s3]
    obtain ⟨t, ht, h1, h2, h3, h4, h5⟩ := ih (i + 1) s3 (by rw [hlen3]; omega)
    refine ⟨t, ?_, ?_, ?_, ?_, ?_, ?_⟩
    · simp only [init_loop, e1, e2, e3, Option.bind_eq_bind, Option.some_bind, ht]
    · rw [h1]; simp [s1, s2, s3]
    · rw [h2]; simp [s1, s2, s3]
    · rw [h3]; simp [s1, s2, s3]
    · rw [h4, hlen3]
    · intro j r hr
      have h6 := h5 j r hr
      by_cases hc : i + 1 ≤ j ∧ j < i + 1 + k
      · rw [if_pos hc] at h6
        have : i ≤ j ∧ j < i + (k + 1) := by omega
        rw [if_pos this]; exact h6
      · rw [if_neg hc] at h6
        simp only [s3, s2, s1, modRec_getElem?] at h6
        by_cases hj : j = i
        · subst hj
          have : j ≤ j ∧ j < j + (k + 1) := by omega
          rw [if_pos this]
          obtain ⟨r0, hr0⟩ := getElem?_of_lt s hi
          simp [hr0] at h6
          subst h6
          exact ⟨rfl, rfl, rfl⟩
        · have : ¬ (i ≤ j ∧ j < i + (k + 1)) := by omega
          rw [if_neg this]
          simpa [hj] using h6

/-- After `init_cart_cache` on a configured table the cache is empty. -/
theorem init_ok (p : CartParams) {s0 : CacheState} (hC : Configured s0) :
    ∃ si, init_cart_cache p s0 = some (si, 0) ∧ Inv p si ∧
      si.MaxCacheFrames = s0.MaxCacheFrames ∧ Rep si [] ∧
      (∀ i a, getAddr si i = some a → a = CACHE_NO_FRAME p) := by
  have hC' : s0.Cache.length = s0.MaxCacheFrames := hC
  obtain ⟨t, ht, h1, h2, h3, h4, h5⟩ := init_loop_spec p s0.MaxCacheFrames 0
    { s0 with head := none, tail := none, LruListSize := 0 } (by simp [hC'])
  have hall : ∀ (j : Nat) (r : CacheRecord), t.Cache[j]? = some r →
      r.frameAddress = CACHE_NO_FRAME p ∧ r.next = none ∧ r.prev = none := by
    intro j r hr
    have hj : j < t.Cache.length := (List.getElem?_eq_some.1 hr).1
    have h6 := h5 j r hr
    have : 0 ≤ j ∧ j < 0 + s0.MaxCacheFrames := by
      rw [h4] at hj
      simp only [hC'] at hj
      omega
    rw [if_pos this] at h6
    exact h6
  have haddr : ∀ i a, getAddr t i = some a → a = CACHE_NO_FRAME p := by
    intro i a hia
    unfold getAddr at hia
    cases h0 : t.Cache[i]? with
    | none => simp [h0] at hia
    | some r =>
      simp [h0] at hia
      rw [← hia]; exact (hall i r h0).1
  have hRep : Rep t [] := by
    refine ⟨List.nodup_nil, by simp, by simpa using h1, by simpa using h2, ?_⟩
    intro i r hr
    simp [nextOf, prevOf, (hall i r hr).2.1, (hall i r hr).2.2]
  refine ⟨t, ?_, ⟨?_, ?_, [], hRep, ?_⟩, by simpa using h3, hRep, haddr⟩
  · simp only [init_cart_cache, ht, Option.bind_eq_bind, Option.some_bind, Option.pure_def]
  · show t.Cache.length = t.MaxCacheFrames
    rw [h4, h3]; exact hC'
  · intro i a hia
    exact Or.inl (haddr i a hia)
  · intro i a hia hne
    exact absurd (haddr i a hia) hne

theorem put_reject (p : CartParams) (s : CacheState) (cart frm : Nat) {k : Nat} (hfa : frameAddr cart frm = some k) (buf : List Nat)
    (hk : k ≥ CACHE_NO_FRAME p) :
    put_cart_cache p s cart frm buf = some (s, -1) := by
  simp [put_cart_cache, hfa, hk]

theorem get_reject (p : CartParams) (s : CacheState) (cart frm : Nat) {k : Nat} (hfa : frameAddr cart frm = some k)
    (hk : k ≥ CACHE_NO_FRAME p) :
    get_cart_cache p s cart frm = some (s, none) := by
  simp [get_cart_cache, hfa, hk]

/-- One call keeps the invariant and the record of the buffers written. -/
theorem step_inv (p : CartParams) {s t : CacheState} {w : Nat → Option (List Nat)}
    (hI : Inv p s) (hW : Written p s w) (op : CacheOp) (hst : step p s op = some t) :
    Inv p t ∧ Written p t (noteOp p w op) ∧ t.MaxCacheFrames = s.MaxCacheFrames := by
  cases op with
  | put cart frm buf =>
    simp only [step] at hst
    cases hfa : frameAddr cart frm with
    | none => simp [put_cart_cache, hfa] at hst
    | some k =>
    by_cases hk : k ≥ CACHE_NO_FRAME p
    · rw [put_reject p s cart frm hfa buf hk] at hst
      simp at hst
      subst hst
      refine ⟨hI, ?_, rfl⟩
      intro i a hia hne
      have : ¬ (k = a ∧ a < CACHE_NO_FRAME p) := by
        intro h; omega
      simpa [noteOp, hfa, this] using hW i a hia hne
    · have hk' : k < CACHE_NO_FRAME p := Nat.not_le.1 hk
      by_cases hN : s.MaxCacheFrames = 0
      · simp [put_cart_cache, hfa, hk, hN] at hst
      · by_cases hb : buf.length < p.CART_FRAME_SIZE
        · exfalso
          simp only [put_cart_cache, hfa, if_neg hk, if_neg hN, Option.bind_eq_bind] at hst
          cases h1 : setAddr s (k % s.MaxCacheFrames) k with
          | none => simp [h1] at hst
          | some s1 => simp [h1, memcpyFrame_short s1 _ hb] at hst
        · obtain ⟨t', ht', hIt, hmax, hat, hft, hoth, _⟩ :=
            put_ok p hI (Nat.pos_of_ne_zero hN) cart frm hfa buf hk' (Nat.not_lt.1 hb)
          rw [ht'] at hst
          simp at hst
          subst hst
          refine ⟨hIt, ?_, hmax⟩
          intro i a hia hne
          by_cases hi : i = k % s.MaxCacheFrames
          · subst hi
            rw [hat] at hia
            simp at hia
            subst hia
            exact ⟨buf, by simp [noteOp, hfa, hk'], Nat.not_lt.1 hb, hft⟩
          · rw [(hoth i hi).1] at hia
            rw [(hoth i hi).2]
            have hak : ¬ k = a := by
              intro e
              rcases hI.2.1 i a hia with h | h
              · exact hne h
              · exact hi (by rw [← h.2, e])
            simpa [noteOp, hfa, hak] using hW i a hia hne
  | get cart frm =>
    simp only [step] at hst
    have hw : noteOp p w (.get cart frm) = w := by funext k; rfl
    rw [hw]
    cases hfa : frameAddr cart frm with
    | none => simp [get_cart_cache, hfa] at hst
    | some k =>
    by_cases hk : k ≥ CACHE_NO_FRAME p
    · rw [get_reject p s cart frm hfa hk] at hst
      simp at hst
      subst hst
      exact ⟨hI, hW, rfl⟩
    · have hk' : k < CACHE_NO_FRAME p := Nat.not_le.1 hk
      by_cases hN : s.MaxCacheFrames = 0
      · simp [get_cart_cache, hfa, hk, hN] at hst
      · by_cases ha : getAddr s (k % s.MaxCacheFrames) = some k
        · obtain ⟨t', ht', hIt, hd, _⟩ :=
            get_hit p hI (Nat.pos_of_ne_zero hN) cart frm hfa hk' ha
          rw [ht'] at hst
          simp at hst
          subst hst
          refine ⟨hIt, ?_, hd.1⟩
          intro i a hia hne
          rw [(hd.2.2.2 i).1] at hia
          rw [(hd.2.2.2 i).2]
          exact hW i a hia hne
        · rw [get_miss p hI.1 (Nat.pos_of_ne_zero hN) cart frm hfa ha] at hst
          simp at hst
          subst hst
          exact ⟨hI, hW, rfl⟩
  | delete cart frm =>
    simp only [step] at hst
    have hw : noteOp p w (.delete cart frm) = w := by funext k; rfl
    rw [hw]
    cases hfa : frameAddr cart frm with
    | none => simp [delete_cart_cache, hfa] at hst
    | some k =>
    by_cases hN : s.MaxCacheFrames = 0
    · by_cases hk : k ≥ CACHE_NO_FRAME p
      · simp [delete_cart_cache, hfa, hk] at hst
        subst hst
        exact ⟨hI, hW, rfl⟩
      · simp [delete_cart_cache, hfa, hk, hN] at hst
    · by_cases ha : k ≥ CACHE_NO_FRAME p ∨ getAddr s (k % s.MaxCacheFrames) ≠ some k
      · rw [delete_miss p hI.1 (Nat.pos_of_ne_zero hN) cart frm hfa ha] at hst
        simp at hst
        subst hst
        exact ⟨hI, hW, rfl⟩
      · push_neg at ha
        obtain ⟨t', ht', hIt, hmax, hat, hft, hoth, _⟩ :=
          delete_hit p hI (Nat.pos_of_ne_zero hN) cart frm hfa ha.1 ha.2
        rw [ht'] at hst
        simp at hst
        subst hst
        refine ⟨hIt, ?_, hmax⟩
        intro i a hia hne
        by_cases hi : i = k % s.MaxCacheFrames
        · subst hi
          rw [hat] at hia
          simp at hia
          exact absurd hia.symm hne
        · rw [hoth i hi] at hia
          rw [hft i]
          exact hW i a hia hne

theorem run_inv (p : CartParams) (ops : List CacheOp) :
    ∀ {s t : CacheState} {w : Nat → Option (List Nat)}, Inv p s → Written p s w →
      run p s ops = some t →
      Inv p t ∧ Written p t (ops.foldl (noteOp p) w) ∧ t.MaxCacheFrames = s.MaxCacheFrames := by
  induction ops with
  | nil =>
    intro s t w hI hW h
    simp [run] at h
    subst h
    exact ⟨hI, hW, rfl⟩
  | cons op ops ih =>
    intro s t w hI hW h
    simp only [run] at h
    cases h1 : step p s op with
    | none => simp [h1] at h
    | some s1 =>
      rw [h1] at h
      simp only [Option.some_bind] at h
      obtain ⟨hI1, hW1, hm1⟩ := step_inv p hI hW op h1
      obtain ⟨hI2, hW2, hm2⟩ := ih hI1 hW1 h
      exact ⟨hI2, hW2, hm2.trans hm1⟩

theorem reachableBy_inv {p : CartParams} {ops : List CacheOp} {s : CacheState}
    (h : ReachableBy p ops s) : Inv p s ∧ Written p s (lastWritten p ops) := by
  obtain ⟨s0, si, hC, hinit, hrun⟩ := h
  obtain ⟨si', hi', hIi, _, _, haddr⟩ := init_ok p hC
  rw [hinit] at hi'
  cases hi'
  have hW : Written p si (fun _ => none) := fun i a hia hne => absurd (haddr i a hia) hne
  obtain ⟨h1, h2, _⟩ := run_inv p ops hIi hW hrun
  exact ⟨h1, h2⟩

theorem reachable_inv {p : CartParams} {s : CacheState} (h : Reachable p s) : Inv p s := by
  obtain ⟨ops, h⟩ := h
  exact (reachableBy_inv h).1

theorem nextOf_append_cons {a : List Nat} {x : Nat} (hx : x ∉ a) (b : List Nat) :
    nextOf (a ++ x :: b) x = b.head? := by
  induction a with
  | nil => simp [nextOf]
  | cons y ys ih =>
    simp only [List.mem_cons, not_or] at hx
    have : ¬ y = x := fun e => hx.1 e.symm
    simp only [List.cons_append, nextOf, this, if_false]
    exact ih hx.2

theorem Rep.length_le {s : CacheState} {l : List Nat} (hR : Rep s l) :
    l.length ≤ s.Cache.length := by
  have hsub : l ⊆ List.range s.Cache.length := fun i hi => List.mem_range.2 (hR.2.1 i hi)
  simpa using (List.Nodup.subperm hR.1 hsub).length_le

theorem walk_suffix {s : CacheState} {l : List Nat} (hR : Rep s l) :
    ∀ (b a : List Nat) (fuel : Nat), l = a ++ b → b.length ≤ fuel →
      walk s fuel b.head? = some b := by
  intro b
  induction b with
  | nil =>
    intro a fuel _ _
    cases fuel <;> simp [walk]
  | cons x b ih =>
    intro a fuel hl hf
    cases fuel with
    | zero => simp at hf
    | succ k =>
      have hxl : x ∈ l := by rw [hl]; simp
      have hnd : (a ++ x :: b).Nodup := hl ▸ hR.1
      have hxa : x ∉ a := fun h =>
        (List.nodup_append.1 hnd).2.2 h (List.mem_cons_self x b)
      have hL : LinkFn s (nextOf l) (prevOf l) := hR.2.2.2.2
      have hgn : getNext s x = some (nextOf l x) := getNext_linkFn hL (hR.2.1 x hxl)
      have hnx : nextOf l x = b.head? := by rw [hl]; exact nextOf_append_cons hxa b
      have hrest := ih (a ++ [x]) k (by simp [hl]) (by simpa using hf)
      simp only [List.head?_cons, walk, hgn, hnx, hrest, Option.bind_eq_bind, Option.some_bind,
        Option.pure_def]

/-- The walk from `head` returns the list that represents the state. -/
theorem Rep.lruList_eq {s : CacheState} {l : List Nat} (hR : Rep s l) : lruList s = some l := by
  unfold CartCache.lruList
  rw [hR.2.2.1]
  exact walk_suffix hR l [] _ rfl (Nat.le_succ_of_le hR.length_le)

theorem getFrame_isSome {s : CacheState} {i : Nat} (h : i < s.Cache.length) :
    ∃ b, getFrame s i = some b := by
  obtain ⟨r, hr⟩ := getElem?_of_lt s h
  exact ⟨r.frame, by simp [getFrame, hr]⟩

/-- What a caller reads through the pointer returned by `get_cart_cache`. -/
theorem getPayload_eq (p : CartParams) {s : CacheState} (hI : Inv p s)
    (hN : 0 < s.MaxCacheFrames) (cart frm : Nat) {k : Nat} (hfa : frameAddr cart frm = some k) :
    getPayload p s cart frm =
      some (if k < CACHE_NO_FRAME p ∧ getAddr s (k % s.MaxCacheFrames) = some k
          then getFrame s (k % s.MaxCacheFrames) else none) := by
  unfold getPayload
  by_cases hk : k < CACHE_NO_FRAME p
  · by_cases ha : getAddr s (k % s.MaxCacheFrames) = some k
    · obtain ⟨t, ht, _, hd, _⟩ := get_hit p hI hN cart frm hfa hk ha
      simp [ht, hk, ha, deref, (hd.2.2.2 _).2]
    · simp [get_miss p hI.1 hN cart frm hfa ha, ha, deref]
  · simp [get_reject p s cart frm hfa (Nat.not_lt.1 hk), hk, deref]

theorem getPayload_undefined (p : CartParams) (s : CacheState) {cart frm : Nat}
    (hfa : frameAddr cart frm = none) : getPayload p s cart frm = none := by
  simp [getPayload, get_cart_cache, hfa]

/-- A `get_cart_cache` call returns a pointer exactly when the slot holds the key. -/
theorem get_some_iff (p : CartParams) {s : CacheState} (hI : Inv p s)
    (hN : 0 < s.MaxCacheFrames) (cart frm : Nat) {t : CacheState} {ptr : Nat}
    (h : get_cart_cache p s cart frm = some (t, some ptr)) :
    ∃ k, frameAddr cart frm = some k ∧ k < CACHE_NO_FRAME p ∧
      getAddr s (k % s.MaxCacheFrames) = some k := by
  cases hfa : frameAddr cart frm with
  | none => simp [get_cart_cache, hfa] at h
  | some k =>
    refine ⟨k, rfl, ?_⟩
    by_cases hk : k < CACHE_NO_FRAME p
    · by_cases ha : getAddr s (k % s.MaxCacheFrames) = some k
      · exact ⟨hk, ha⟩
      · rw [get_miss p hI.1 hN cart frm hfa ha] at h
        simp at h
    · rw [get_reject p s cart frm hfa (Nat.not_lt.1 hk)] at h
      simp at h

theorem promoted_of_rep {s t : CacheState} {l : List Nat} {idx : Nat} (hs : Rep s l)
    (ht : Rep t (idx :: l.erase idx)) : Promoted s t idx := by
  have hni : idx ∉ l.erase idx := List.Nodup.not_mem_erase hs.1
  refine ⟨by simpa using ht.2.2.1, l, idx :: l.erase idx, hs.lruList_eq, ht.lruList_eq, ?_, ?_⟩
  · simp [List.count_cons, List.count_eq_zero_of_not_mem hni]
  · have h1 : (idx :: l.erase idx).filter (fun j => decide (j ≠ idx)) =
        (l.erase idx).filter (fun j => decide (j ≠ idx)) := by simp
    rw [h1, List.Nodup.erase_eq_filter hs.1, List.filter_filter]
    apply List.filter_congr
    intro a _
    by_cases ha : a = idx <;> simp [ha]

theorem runFromInit_reachable {p : CartParams} {s0 s : CacheState} {ops : List CacheOp}
    (hC : Configured s0) (h : runFromInit p s0 ops = some s) : ReachableBy p ops s := by
  obtain ⟨si, hi, _⟩ := init_ok p hC
  refine ⟨s0, si, hC, hi, ?_⟩
  simpa [runFromInit, hi] using h

theorem put_short (p : CartParams) (s : CacheState) (cart frm : Nat) {k : Nat}
    (hfa : frameAddr cart frm = some k) {buf : List Nat}
    (hk : k < CACHE_NO_FRAME p) (hb : buf.length < p.CART_FRAME_SIZE) :
    put_cart_cache p s cart frm buf = none := by
  have hk' : ¬ (k ≥ CACHE_NO_FRAME p) := Nat.not_le.2 hk
  by_cases hN : s.MaxCacheFrames = 0
  · simp [put_cart_cache, hfa, hk', hN]
  · simp only [put_cart_cache, hfa, if_neg hk', if_neg hN, Option.bind_eq_bind]
    cases h1 : setAddr s (k % s.MaxCacheFrames) k with
    | none => rfl
    | some s1 => simp [memcpyFrame_short s1 _ hb]

theorem frameAddr_eq_mul {cart frm k : Nat} (hfa : frameAddr cart frm = some k) :
    k = cart * frm ∧ cart < 2 ^ 16 ∧ frm < 2 ^ 16 ∧ cart * frm ≤ 2 ^ 31 - 1 := by
  unfold frameAddr at hfa
  split at hfa
  · next h => exact ⟨(Option.some.inj hfa).symm, h⟩
  · simp at hfa

theorem frameAddr_lt_of_in_bounds (p : CartParams) {cart frm k : Nat}
    (hfa : frameAddr cart frm = some k)
    (hc : cart < p.CART_MAX_CARTRIDGES) (hf : frm < p.CART_CARTRIDGE_SIZE) :
    k < CACHE_NO_FRAME p := by
  rw [(frameAddr_eq_mul hfa).1]
  unfold CACHE_NO_FRAME
  exact Nat.mul_lt_mul'' hc hf

/-- For an in-bounds pair the product is defined and below `CACHE_NO_FRAME`. -/
theorem frameAddr_of_in_bounds {p : CartParams} (hp : ParamsFit p) {cart frm : Nat}
    (hc : cart < p.CART_MAX_CARTRIDGES) (hf : frm < p.CART_CARTRIDGE_SIZE) :
    frameAddr cart frm = some (cart * frm) ∧ cart * frm < CACHE_NO_FRAME p := by
  obtain ⟨h1, h2, h3⟩ := hp
  have hlt : cart * frm < CACHE_NO_FRAME p := by
    unfold CACHE_NO_FRAME
    exact Nat.mul_lt_mul'' hc hf
  refine ⟨?_, hlt⟩
  unfold frameAddr
  rw [if_pos]
  exact ⟨lt_of_lt_of_le hc h1, lt_of_lt_of_le hf h2, le_trans (Nat.le_of_lt hlt) h3⟩

set_option maxRecDepth 100000

theorem cache2_reachable : ReachableBy cartDefaults [] cache2 :=
  ⟨blank 2, cache2, by decide, by decide, rfl⟩

theorem cache2A_reachable : ReachableBy cartDefaults [.put 1 1 (frameOf 65)] cache2A :=
  @runFromInit_reachable cartDefaults (blank 2) cache2A _ (by decide) (by decide)

/-- C1 (round trip).  In every state reachable from `init_cart_cache` with
`MaxCacheFrames > 0`, for every `(cart, frm)` whose key `cart * frm` is below
`CACHE_NO_FRAME` and every buffer of `CART_FRAME_SIZE` bytes,
`put_cart_cache` returns 0 and the `get_cart_cache` that follows returns a
non-`NULL` pointer to bytes equal to the buffer. -/
theorem put_get_round_trip (p : CartParams) (s : CacheState) (hs : Reachable p s)
    (hN : 0 < s.MaxCacheFrames) (cart frm k : Nat) (buf : List Nat)
    (hfa : frameAddr cart frm = some k)
    (hk : k < CACHE_NO_FRAME p) (hb : buf.length = p.CART_FRAME_SIZE) :
    ∃ s1 s2 ptr, put_cart_cache p s cart frm buf = some (s1, 0) ∧
      get_cart_cache p s1 cart frm = some (s2, some ptr) ∧
      deref s2 (some ptr) = some buf := by
  obtain ⟨s1, h1, hI1, hmax, hat, hft, _, _⟩ :=
    put_ok p (reachable_inv hs) hN cart frm hfa buf hk (Nat.le_of_eq hb.symm)
  rw [← hmax] at hat hft
  obtain ⟨s2, h2, _, hd, _⟩ := get_hit p hI1 (hmax ▸ hN) cart frm hfa hk hat
  refine ⟨s1, s2, _, h1, h2, ?_⟩
  simp only [deref]
  rw [(hd.2.2.2 _).2, hft, ← hb, List.take_length]

theorem put_get_round_trip_witness :
    Reachable cartDefaults cache2 ∧ 0 < cache2.MaxCacheFrames ∧
      frameAddr 1 3 = some 3 ∧ 3 < CACHE_NO_FRAME cartDefaults ∧
      (frameOf 67).length = cartDefaults.CART_FRAME_SIZE ∧
      ∃ s1 s2 ptr, put_cart_cache cartDefaults cache2 1 3 (frameOf 67) = some (s1, 0) ∧
        get_cart_cache cartDefaults s1 1 3 = some (s2, some ptr) ∧
        deref s2 (some ptr) = some (frameOf 67) :=
  ⟨⟨[], cache2_reachable⟩, by decide, by decide, by decide, by decide,
    put_get_round_trip cartDefaults cache2 ⟨[], cache2_reachable⟩ (by decide) 1 3 3
      (frameOf 67) (by decide) (by decide) (by decide)⟩

/-- C2, counterexample.  Capacity 2: after `put(1,1)`, `put(1,2)` and then
`put(1,4)`, the least recently touched of the first two pairs, `(1,1)`, is
still returned by `get_cart_cache`, and the most recently touched one, `(1,2)`,
is the pair that is gone (keys 2 and 4 share slot 0). -/
theorem lru_eviction_counterexample :
    (runFromInit cartDefaults (blank 2)
        [.put 1 1 (frameOf 65), .put 1 2 (frameOf 66), .put 1 4 (frameOf 67)]).bind
      (fun s => getPayload cartDefaults s 1 1) = some (some (frameOf 65)) ∧
    (runFromInit cartDefaults (blank 2)
        [.put 1 1 (frameOf 65), .put 1 2 (frameOf 66), .put 1 4 (frameOf 67)]).bind
      (fun s => getPayload cartDefaults s 1 2) = some none := by
  decide

/-- C2, amended.  For every capacity `N ≥ 1` and every reachable state, a
`put_cart_cache` of a pair with key `k < CACHE_NO_FRAME` returns 0 and evicts
by slot, not by recency: every other key that maps to slot `k % N` is not
returned by `get_cart_cache` afterwards, and every key that maps to another
slot is returned, or not, with the same payload as before the call. -/
theorem put_evicts_slot_occupant (p : CartParams) (s : CacheState) (hs : Reachable p s)
    (hN : 0 < s.MaxCacheFrames) (cart frm k : Nat) (buf : List Nat)
    (hfa : frameAddr cart frm = some k)
    (hk : k < CACHE_NO_FRAME p) (hb : p.CART_FRAME_SIZE ≤ buf.length) :
    ∃ s1, put_cart_cache p s cart frm buf = some (s1, 0) ∧
      (∀ c f k2, frameAddr c f = some k2 → k2 ≠ k →
        k2 % s.MaxCacheFrames = k % s.MaxCacheFrames →
        getPayload p s1 c f = some none) ∧
      (∀ c f k2, frameAddr c f = some k2 →
        k2 % s.MaxCacheFrames ≠ k % s.MaxCacheFrames →
        getPayload p s1 c f = getPayload p s c f) := by
  have hI := reachable_inv hs
  obtain ⟨s1, h1, hI1, hmax, hat, hft, hoth, _⟩ := put_ok p hI hN cart frm hfa buf hk hb
  refine ⟨s1, h1, ?_, ?_⟩
  · intro c f k2 hfa2 hne hslot
    rw [getPayload_eq p hI1 (hmax ▸ hN) c f hfa2, hmax, hslot, hat]
    have : ¬ (k = k2) := fun e => hne e.symm
    simp [this]
  · intro c f k2 hfa2 hslot
    rw [getPayload_eq p hI1 (hmax ▸ hN) c f hfa2, getPayload_eq p hI hN c f hfa2, hmax,
      (hoth _ hslot).1, (hoth _ hslot).2]

theorem put_evicts_slot_occupant_witness :
    Reachable cartDefaults cache2A ∧ 0 < cache2A.MaxCacheFrames ∧
      frameAddr 1 3 = some 3 ∧ 3 < CACHE_NO_FRAME cartDefaults ∧
      cartDefaults.CART_FRAME_SIZE ≤ (frameOf 67).length ∧
      ∃ s1, put_cart_cache cartDefaults cache2A 1 3 (frameOf 67) = some (s1, 0) ∧
        (∀ c f k2, frameAddr c f = some k2 → k2 ≠ 3 →
          k2 % cache2A.MaxCacheFrames = 3 % cache2A.MaxCacheFrames →
          getPayload cartDefaults s1 c f = some none) ∧
        (∀ c f k2, frameAddr c f = some k2 →
          k2 % cache2A.MaxCacheFrames ≠ 3 % cache2A.MaxCacheFrames →
          getPayload cartDefaults s1 c f = getPayload cartDefaults cache2A c f) :=
  ⟨⟨_, cache2A_reachable⟩, by decide, by decide, by decide, by decide,
    put_evicts_slot_occupant cartDefaults cache2A ⟨_, cache2A_reachable⟩ (by decide) 1 3 3
      (frameOf 67) (by decide) (by decide) (by decide)⟩

theorem delete_reject (p : CartParams) (s : CacheState) (cart frm : Nat) {k : Nat}
    (hfa : frameAddr cart frm = some k) (hk : k ≥ CACHE_NO_FRAME p) :
    delete_cart_cache p s cart frm = some (s, none) := by
  simp [delete_cart_cache, hfa, hk]

theorem runFromInit_inv {p : CartParams} {s0 s : CacheState} {ops : List CacheOp}
    (hC : Configured s0) (h : runFromInit p s0 ops = some s) :
    Inv p s ∧ s.MaxCacheFrames = s0.MaxCacheFrames := by
  obtain ⟨si, hi, hIi, hmi, _, haddr⟩ := init_ok p hC
  have hrun : run p si ops = some s := by simpa [runFromInit, hi] using h
  have hW : Written p si (fun _ => none) := fun i a hia hne => absurd (haddr i a hia) hne
  obtain ⟨h1, _, h3⟩ := run_inv p ops hIi hW hrun
  exact ⟨h1, h3.trans hmi⟩

theorem remove_noop {s : CacheState} {r : Nat} (hn : getNext s r = some none)
    (hp : getPrev s r = some none) : remove_from_lru s r = some s := by
  simp [remove_from_lru, hn, hp]

/-- The table left by a successful `set_cart_cache_size` has `MaxCacheFrames` records. -/
theorem set_cart_cache_size_configured (s : CacheState) (max_frames : Nat)
    (garbage : Nat → CacheRecord) :
    (set_cart_cache_size s max_frames true garbage).2 = 0 ∧
      Configured (set_cart_cache_size s max_frames true garbage).1 ∧
      (set_cart_cache_size s max_frames true garbage).1.MaxCacheFrames = max_frames := by
  simp [set_cart_cache_size, Configured]

theorem cache3_reachable :
    ReachableBy cartDefaults
      [.put 1 1 (frameOf 65), .put 1 2 (frameOf 66), .put 1 3 (frameOf 67)] cache3 :=
  @runFromInit_reachable cartDefaults (blank 3) cache3 _ (by decide) (by decide)

/-- C3, counterexample.  With `MaxCacheFrames = 2` the scenario does not yield
"A", `NULL`, "A", "C" for its four `get_cart_cache` calls. -/
theorem scenario_counterexample :
    (init_cart_cache cartDefaults (blank 2)).bind (fun r => outputs cartDefaults r.1
        [.put 1 1 (frameOf 65), .put 1 2 (frameOf 66), .get 1 1, .put 1 3 (frameOf 67),
          .get 1 2, .get 1 1, .get 1 3]) ≠
      some [some (frameOf 65), none, some (frameOf 65), some (frameOf 67)] := by
  decide

/-- C3, amended.  With `MaxCacheFrames = 2`, starting from `init_cart_cache`, the
sequence `put(1,1,A)`, `put(1,2,B)`, `get(1,1)`, `put(1,3,C)`, `get(1,2)`,
`get(1,1)`, `get(1,3)` yields for the four `get` calls, in order: payload `A`,
payload `B`, `NULL`, payload `C` (key 3 replaces key 1 in slot 1, key 2 stays in
slot 0). -/
theorem scenario_outputs (p : CartParams) (s0 : CacheState) (A B C : List Nat)
    (hC : Configured s0) (hN : s0.MaxCacheFrames = 2) (hNF : 3 < CACHE_NO_FRAME p)
    (hA : A.length = p.CART_FRAME_SIZE) (hB : B.length = p.CART_FRAME_SIZE)
    (hCl : C.length = p.CART_FRAME_SIZE) :
    (init_cart_cache p s0).bind (fun r => outputs p r.1
        [.put 1 1 A, .put 1 2 B, .get 1 1, .put 1 3 C, .get 1 2, .get 1 1, .get 1 3]) =
      some [some A, some B, none, some C] := by
  have f11 : frameAddr 1 1 = some 1 := by decide
  have f12 : frameAddr 1 2 = some 2 := by decide
  have f13 : frameAddr 1 3 = some 3 := by decide
  have tA : A.take p.CART_FRAME_SIZE = A := by rw [← hA, List.take_length]
  have tB : B.take p.CART_FRAME_SIZE = B := by rw [← hB, List.take_length]
  have tC : C.take p.CART_FRAME_SIZE = C := by rw [← hCl, List.take_length]
  obtain ⟨si, hinit, hIi, hmi, _, _⟩ := init_ok p hC
  rw [hN] at hmi
  obtain ⟨s1, e1, hI1, hm1, ha1, hf1, _, _⟩ :=
    put_ok p hIi (by omega) 1 1 f11 A (by omega) (Nat.le_of_eq hA.symm)
  rw [hmi] at hm1
  simp only [hmi, Nat.reduceMod, tA] at ha1 hf1
  obtain ⟨s2, e2, hI2, hm2, ha2, hf2, ho2, _⟩ :=
    put_ok p hI1 (by omega) 1 2 f12 B (by omega) (Nat.le_of_eq hB.symm)
  rw [hm1] at hm2
  simp only [hm1, Nat.reduceMod, tB] at ha2 hf2 ho2
  have ha2' : getAddr s2 1 = some 1 := by rw [(ho2 1 (by decide)).1, ha1]
  have hf2' : getFrame s2 1 = some A := by rw [(ho2 1 (by decide)).2, hf1]
  obtain ⟨s3, e3, hI3, hd3, _⟩ :=
    get_hit p hI2 (by omega) 1 1 f11 (by omega) (by simpa [hm2] using ha2')
  have hm3 : s3.MaxCacheFrames = 2 := hd3.1.trans hm2
  simp only [hm2, Nat.reduceMod] at e3
  obtain ⟨s4, e4, hI4, hm4, ha4, hf4, ho4, _⟩ :=
    put_ok p hI3 (by omega) 1 3 f13 C (by omega) (Nat.le_of_eq hCl.symm)
  rw [hm3] at hm4
  simp only [hm3, Nat.reduceMod, tC] at ha4 hf4 ho4
  have ha4' : getAddr s4 0 = some 2 := by
    rw [(ho4 0 (by decide)).1, (hd3.2.2.2 0).1, ha2]
  have hf4' : getFrame s4 0 = some B := by
    rw [(ho4 0 (by decide)).2, (hd3.2.2.2 0).2, hf2]
  obtain ⟨s5, e5, hI5, hd5, _⟩ :=
    get_hit p hI4 (by omega) 1 2 f12 (by omega) (by simpa [hm4] using ha4')
  have hm5 : s5.MaxCacheFrames = 2 := hd5.1.trans hm4
  simp only [hm4, Nat.reduceMod] at e5
  have ha5 : getAddr s5 1 = some 3 := by rw [(hd5.2.2.2 1).1, ha4]
  have e6 : get_cart_cache p s5 1 1 = some (s5, none) :=
    get_miss p hI5.1 (by omega) 1 1 f11 (by simp [hm5, ha5])
  obtain ⟨s7, e7, _, hd7, _⟩ :=
    get_hit p hI5 (by omega) 1 3 f13 (by omega) (by simpa [hm5] using ha5)
  simp only [hm5, Nat.reduceMod] at e7
  have p3 : getFrame s3 1 = some A := by rw [(hd3.2.2.2 1).2, hf2']
  have p5 : getFrame s5 0 = some B := by rw [(hd5.2.2.2 0).2, hf4']
  have p7 : getFrame s7 1 = some C := by rw [(hd7.2.2.2 1).2, (hd5.2.2.2 1).2, hf4]
  simp only [hinit, outputs, e1, e2, e3, e4, e5, e6, e7, p3, p5, p7, deref, Option.some_bind,
    Option.map_some']

theorem scenario_outputs_witness :
    Configured (blank 2) ∧ (blank 2).MaxCacheFrames = 2 ∧ 3 < CACHE_NO_FRAME cartDefaults ∧
      (init_cart_cache cartDefaults (blank 2)).bind (fun r => outputs cartDefaults r.1
          [.put 1 1 (frameOf 65), .put 1 2 (frameOf 66), .get 1 1, .put 1 3 (frameOf 67),
            .get 1 2, .get 1 1, .get 1 3]) =
        some [some (frameOf 65), some (frameOf 66), none, some (frameOf 67)] :=
  ⟨by decide, rfl, by decide,
    scenario_outputs cartDefaults (blank 2) (frameOf 65) (frameOf 66) (frameOf 67) (by decide)
      rfl (by decide) (by decide) (by decide) (by decide)⟩

/-- C4, counterexample.  Capacity 2, the distinct in-bounds pairs `(1,2)` and
`(1,4)`: after `init_cart_cache`, `put(1,2,A)` and `put(1,4,B)`, the call
`get(1,2)` returns `NULL` although one slot is still free. -/
theorem no_silent_overwrite_counterexample :
    ((1 : Nat) < cartDefaults.CART_MAX_CARTRIDGES ∧ (2 : Nat) < cartDefaults.CART_CARTRIDGE_SIZE ∧
      (4 : Nat) < cartDefaults.CART_CARTRIDGE_SIZE) ∧
    (runFromInit cartDefaults (blank 2) [.put 1 2 (frameOf 65), .put 1 4 (frameOf 66)]).bind
      (fun s => getPayload cartDefaults s 1 2) = some none ∧
    (runFromInit cartDefaults (blank 2) [.put 1 2 (frameOf 65), .put 1 4 (frameOf 66)]).map
      (fun s => getAddr s 1) = some (some (CACHE_NO_FRAME cartDefaults)) := by
  decide

/-- C4, amended.  For every capacity `N ≥ 1` and every two in-bounds pairs `p`, `q`
whose keys `cart * frm` map to different slots (their remainders modulo
`MaxCacheFrames` differ), after `init_cart_cache`, `put(p, bufP)` and
`put(q, bufQ)`, `get(p)` returns `bufP` and `get(q)` returns `bufQ`.  The
header constants are any that fit the machine types. -/
theorem distinct_slots_both_retained (p : CartParams) (s0 : CacheState)
    (c1 f1 c2 f2 : Nat) (bufP bufQ : List Nat) (hp : ParamsFit p) (hC : Configured s0)
    (hN0 : 0 < s0.MaxCacheFrames)
    (hc1 : c1 < p.CART_MAX_CARTRIDGES) (hf1 : f1 < p.CART_CARTRIDGE_SIZE)
    (hc2 : c2 < p.CART_MAX_CARTRIDGES) (hf2 : f2 < p.CART_CARTRIDGE_SIZE)
    (hP : bufP.length = p.CART_FRAME_SIZE) (hQ : bufQ.length = p.CART_FRAME_SIZE)
    (hslot : (c1 * f1) % s0.MaxCacheFrames ≠ (c2 * f2) % s0.MaxCacheFrames) :
    (init_cart_cache p s0).bind (fun r => outputs p r.1
        [.put c1 f1 bufP, .put c2 f2 bufQ, .get c1 f1, .get c2 f2]) =
      some [some bufP, some bufQ] := by
  obtain ⟨hfa1, hk1⟩ := frameAddr_of_in_bounds hp hc1 hf1
  obtain ⟨hfa2, hk2⟩ := frameAddr_of_in_bounds hp hc2 hf2
  have tP : bufP.take p.CART_FRAME_SIZE = bufP := by rw [← hP, List.take_length]
  have tQ : bufQ.take p.CART_FRAME_SIZE = bufQ := by rw [← hQ, List.take_length]
  obtain ⟨si, hinit, hIi, hmi, _, hempty⟩ := init_ok p hC
  have hN : 0 < si.MaxCacheFrames := by rw [hmi]; exact hN0
  rw [← hmi] at hslot
  obtain ⟨s1, e1, hI1, hm1, ha1, hf1', _, _⟩ :=
    put_ok p hIi hN c1 f1 hfa1 bufP hk1 (Nat.le_of_eq hP.symm)
  rw [← hm1] at hslot ha1 hf1'
  obtain ⟨s2, e2, hI2, hm2, ha2, hf2', ho2, _⟩ :=
    put_ok p hI1 (hm1 ▸ hN) c2 f2 hfa2 bufQ hk2 (Nat.le_of_eq hQ.symm)
  have ha2' := (ho2 _ hslot).1.trans ha1
  have hf2'' := (ho2 _ hslot).2.trans hf1'
  rw [← hm2] at ha2 hf2' ha2' hf2'' hslot
  have hN2 : 0 < s2.MaxCacheFrames := by rw [hm2, hm1]; exact hN
  obtain ⟨s3, e3, hI3, hd3, _⟩ := get_hit p hI2 hN2 c1 f1 hfa1 hk1 ha2'
  rw [← hd3.1] at ha2 hf2' hslot
  rw [← (hd3.2.2.2 _).1] at ha2
  obtain ⟨s4, e4, _, hd4, _⟩ := get_hit p hI3 (hd3.1 ▸ hN2) c2 f2 hfa2 hk2 ha2
  have p3 : getFrame s3 ((c1 * f1) % s2.MaxCacheFrames) = some bufP := by
    rw [(hd3.2.2.2 _).2, hf2'', tP]
  have p4 : getFrame s4 ((c2 * f2) % s3.MaxCacheFrames) = some bufQ := by
    rw [(hd4.2.2.2 _).2, (hd3.2.2.2 _).2, hf2', tQ]
  simp only [hinit, outputs, e1, e2, e3, e4, p3, p4, deref, Option.some_bind, Option.map_some']

theorem distinct_slots_both_retained_witness :
    ParamsFit cartDefaults ∧ Configured (blank 2) ∧ 0 < (blank 2).MaxCacheFrames ∧
      (1 * 2) % (blank 2).MaxCacheFrames ≠ (1 * 3) % (blank 2).MaxCacheFrames ∧
      (init_cart_cache cartDefaults (blank 2)).bind (fun r => outputs cartDefaults r.1
          [.put 1 2 (frameOf 65), .put 1 3 (frameOf 66), .get 1 2, .get 1 3]) =
        some [some (frameOf 65), some (frameOf 66)] :=
  ⟨by decide, by decide, by decide, by decide,
    distinct_slots_both_retained cartDefaults (blank 2) 1 2 1 3 (frameOf 65) (frameOf 66)
      (by decide) (by decide) (by decide) (by decide) (by decide) (by decide) (by decide)
      (by decide) (by decide) (by decide)⟩

/-- C5, failing input.  The pairs `(1, 2)` and `(2, 1)` are distinct and inside
the address space, and `cart * frm` gives both the key 2; a frame written for
`(1, 2)` is then returned by `get_cart_cache(2, 1)`. -/
theorem key_collision :
    ((1 : Nat) < cartDefaults.CART_MAX_CARTRIDGES ∧ (2 : Nat) < cartDefaults.CART_CARTRIDGE_SIZE) ∧
    ((2 : Nat) < cartDefaults.CART_MAX_CARTRIDGES ∧ (1 : Nat) < cartDefaults.CART_CARTRIDGE_SIZE) ∧
    ((1, 2) : Nat × Nat) ≠ (2, 1) ∧ frameAddr 1 2 = some 2 ∧ frameAddr 2 1 = some 2 ∧
    (runFromInit cartDefaults (blank 2) [.put 1 2 (frameOf 65)]).bind
      (fun s => getPayload cartDefaults s 2 1) = some (some (frameOf 65)) := by
  decide

/-- C6 (delete of a present key).  In every state reached from
`init_cart_cache` by the calls `ops`, with `MaxCacheFrames > 0`, in which
`get_cart_cache(cart, frm)` returns a pointer, `delete_cart_cache(cart, frm)`
returns a non-`NULL` pointer to the `CART_FRAME_SIZE` bytes of the buffer last
written to that key by an accepted `put_cart_cache` of `ops`, and a
`get_cart_cache(cart, frm)` issued right after returns `NULL`. -/
theorem delete_present (p : CartParams) (ops : List CacheOp) (s : CacheState)
    (hs : ReachableBy p ops s) (hN : 0 < s.MaxCacheFrames) (cart frm : Nat)
    (hhit : ∃ s1 ptr, get_cart_cache p s cart frm = some (s1, some ptr)) :
    ∃ t ptr b k, frameAddr cart frm = some k ∧
      delete_cart_cache p s cart frm = some (t, some ptr) ∧
      lastWritten p ops k = some b ∧
      p.CART_FRAME_SIZE ≤ b.length ∧
      deref t (some ptr) = some (b.take p.CART_FRAME_SIZE) ∧
      get_cart_cache p t cart frm = some (t, none) := by
  obtain ⟨hI, hW⟩ := reachableBy_inv hs
  obtain ⟨s1, ptr, hget⟩ := hhit
  obtain ⟨k, hfa, hk, ha⟩ := get_some_iff p hI hN cart frm hget
  obtain ⟨t, ht, hIt, hmax, hat, hft, _, _⟩ := delete_hit p hI hN cart frm hfa hk ha
  obtain ⟨b, hb1, hb2, hb3⟩ := hW _ _ ha (Nat.ne_of_lt hk)
  refine ⟨t, _, b, k, hfa, ht, hb1, hb2, ?_, ?_⟩
  · simp only [deref]
    rw [hft, hb3]
  · apply get_miss p hIt.1 (hmax ▸ hN) cart frm hfa
    rw [hmax, hat]
    intro e
    exact Nat.ne_of_lt hk (Option.some.inj e).symm

theorem delete_present_witness :
    ReachableBy cartDefaults [.put 1 1 (frameOf 65)] cache2A ∧ 0 < cache2A.MaxCacheFrames ∧
      (∃ s1 ptr, get_cart_cache cartDefaults cache2A 1 1 = some (s1, some ptr)) ∧
      ∃ t ptr b k, frameAddr 1 1 = some k ∧
        delete_cart_cache cartDefaults cache2A 1 1 = some (t, some ptr) ∧
        lastWritten cartDefaults [.put 1 1 (frameOf 65)] k = some b ∧
        cartDefaults.CART_FRAME_SIZE ≤ b.length ∧
        deref t (some ptr) = some (b.take cartDefaults.CART_FRAME_SIZE) ∧
        get_cart_cache cartDefaults t 1 1 = some (t, none) :=
  ⟨cache2A_reachable, by decide, ⟨cache2A, 1, by decide⟩,
    delete_present cartDefaults [.put 1 1 (frameOf 65)] cache2A cache2A_reachable (by decide)
      1 1 ⟨cache2A, 1, by decide⟩⟩

/-- C8 (recency promotion).  In every state reachable from `init_cart_cache`
with `MaxCacheFrames > 0` and for every key below `CACHE_NO_FRAME`: a
`put_cart_cache` with a full-size buffer returns 0; a `get_cart_cache` on a key
held by its slot returns a pointer; and every `put_cart_cache` that returns 0
and every `get_cart_cache` that returns a pointer leaves the accessed slot at
the head of the recency list, on the list exactly once, with the other records
of the list in the order they had before the call. -/
theorem recency_promotion (p : CartParams) (s : CacheState) (hs : Reachable p s)
    (hN : 0 < s.MaxCacheFrames) (cart frm k : Nat) (hfa : frameAddr cart frm = some k)
    (hk : k < CACHE_NO_FRAME p) :
    (∀ buf, p.CART_FRAME_SIZE ≤ buf.length →
      ∃ t, put_cart_cache p s cart frm buf = some (t, 0)) ∧
    (∀ buf t, put_cart_cache p s cart frm buf = some (t, 0) →
      Promoted s t (k % s.MaxCacheFrames)) ∧
    (getAddr s (k % s.MaxCacheFrames) = some k →
      ∃ t, get_cart_cache p s cart frm = some (t, some (k % s.MaxCacheFrames))) ∧
    (∀ t ptr, get_cart_cache p s cart frm = some (t, some ptr) →
      ptr = k % s.MaxCacheFrames ∧ Promoted s t (k % s.MaxCacheFrames)) := by
  have hI := reachable_inv hs
  obtain ⟨l, hR, _⟩ := hI.2.2
  refine ⟨?_, ?_, ?_, ?_⟩
  · intro buf hb
    obtain ⟨t, ht, _⟩ := put_ok p hI hN cart frm hfa buf hk hb
    exact ⟨t, ht⟩
  · intro buf t hput
    by_cases hb : buf.length < p.CART_FRAME_SIZE
    · rw [put_short p s cart frm hfa hk hb] at hput
      simp at hput
    · obtain ⟨t', ht', _, _, _, _, _, hrep⟩ :=
        put_ok p hI hN cart frm hfa buf hk (Nat.not_lt.1 hb)
      rw [ht'] at hput
      simp at hput
      subst hput
      exact promoted_of_rep hR (hrep l hR)
  · intro ha
    obtain ⟨t, ht, _⟩ := get_hit p hI hN cart frm hfa hk ha
    exact ⟨t, ht⟩
  · intro t ptr hget
    obtain ⟨k2, hfa2, _, ha⟩ := get_some_iff p hI hN cart frm hget
    have hkk : k2 = k := Option.some.inj (hfa2.symm.trans hfa)
    subst hkk
    obtain ⟨t', ht', _, _, hrep⟩ := get_hit p hI hN cart frm hfa hk ha
    rw [ht'] at hget
    simp at hget
    obtain ⟨h1, h2⟩ := hget
    subst h1
    exact ⟨h2.symm, promoted_of_rep hR (hrep l hR)⟩

theorem recency_promotion_witness :
    Reachable cartDefaults cache3 ∧ 0 < cache3.MaxCacheFrames ∧ frameAddr 1 1 = some 1 ∧
      1 < CACHE_NO_FRAME cartDefaults ∧
      getAddr cache3 (1 % cache3.MaxCacheFrames) = some 1 ∧
      lruList cache3 = some [0, 2, 1] ∧
      (get_cart_cache cartDefaults cache3 1 1).map (fun r => (r.2, r.1.head, lruList r.1)) =
        some (some 1, some 1, some [1, 0, 2]) ∧
      ((∀ buf, cartDefaults.CART_FRAME_SIZE ≤ buf.length →
        ∃ t, put_cart_cache cartDefaults cache3 1 1 buf = some (t, 0)) ∧
      (∀ buf t, put_cart_cache cartDefaults cache3 1 1 buf = some (t, 0) →
        Promoted cache3 t (1 % cache3.MaxCacheFrames)) ∧
      (getAddr cache3 (1 % cache3.MaxCacheFrames) = some 1 →
        ∃ t, get_cart_cache cartDefaults cache3 1 1 =
          some (t, some (1 % cache3.MaxCacheFrames))) ∧
      (∀ t ptr, get_cart_cache cartDefaults cache3 1 1 = some (t, some ptr) →
        ptr = 1 % cache3.MaxCacheFrames ∧ Promoted cache3 t (1 % cache3.MaxCacheFrames))) :=
  ⟨⟨_, cache3_reachable⟩, by decide, by decide, by decide, by decide, by decide, by decide,
    recency_promotion cartDefaults cache3 ⟨_, cache3_reachable⟩ (by decide) 1 1 1 (by decide)
      (by decide)⟩

/-- C9, failing input.  With two slots, after `init_cart_cache`,
`put_cart_cache(1, 1, buf)` and `delete_cart_cache(1, 1)`, slot 1 holds
`CACHE_NO_FRAME` and is still `head`, `tail` and the one record of the
recency list: `remove_from_lru` does nothing for a record whose `next` and
`prev` are both `NULL`, which is also the state of the only record on the list. -/
theorem delete_only_record_stays_listed :
    (runFromInit cartDefaults (blank 2) [.put 1 1 (frameOf 65), .delete 1 1]).map
      (fun s => (getAddr s 1, s.head, s.tail, lruList s)) =
      some (some (CACHE_NO_FRAME cartDefaults), some 1, some 1, some [1]) := by
  decide

/-- C10 (list consistency).  In every state reachable from `init_cart_cache` by
`put`, `get` and `delete` calls: `head` is `NULL` iff `tail` is `NULL`;
`head->prev` and `tail->next` are `NULL`; the walk along `next` from `head`
ends, visits no record twice and its last record is `tail`; and for every
record `r` it visits, `r->next->prev` is `r` when `r->next` is not `NULL` and
`r->prev->next` is `r` when `r->prev` is not `NULL`. -/
theorem lru_list_well_formed (p : CartParams) (s : CacheState) (hs : Reachable p s) :
    (s.head = none ↔ s.tail = none) ∧
    (∀ h, s.head = some h → getPrev s h = some none) ∧
    (∀ t, s.tail = some t → getNext s t = some none) ∧
    ∃ l, lruList s = some l ∧ l.Nodup ∧ l.getLast? = s.tail ∧
      ∀ r ∈ l,
        (∀ n, getNext s r = some (some n) → getPrev s n = some (some r)) ∧
        (∀ q, getPrev s r = some (some q) → getNext s q = some (some r)) := by
  obtain ⟨_, _, l, hR, _⟩ := reachable_inv hs
  obtain ⟨hnd, hbd, hhead, htail, hlinks⟩ := hR
  have hR : Rep s l := ⟨hnd, hbd, hhead, htail, hlinks⟩
  have hL : LinkFn s (nextOf l) (prevOf l) := hlinks
  refine ⟨?_, ?_, ?_, l, hR.lruList_eq, hnd, htail.symm, ?_⟩
  · rw [hhead, htail]
    cases l with
    | nil => simp
    | cons x xs => simp [List.getLast?_eq_none_iff]
  · intro h hh
    have hm : h ∈ l := head?_mem (hhead ▸ hh)
    rw [getPrev_linkFn hL (hbd h hm), (prevOf_eq_none_iff hnd hm).2 (hhead ▸ hh)]
  · intro t ht
    have hm : t ∈ l := getLast?_mem (htail ▸ ht)
    rw [getNext_linkFn hL (hbd t hm), (nextOf_eq_none_iff hnd hm).2 (htail ▸ ht)]
  · intro r hr
    refine ⟨fun n hn => ?_, fun q hq => ?_⟩
    · rw [getNext_linkFn hL (hbd r hr)] at hn
      have hn' : nextOf l r = some n := Option.some.inj hn
      rw [getPrev_linkFn hL (hbd n (nextOf_mem hn').2), (prevOf_eq_some_iff hnd r n).2 hn']
    · rw [getPrev_linkFn hL (hbd r hr)] at hq
      have hq' : prevOf l r = some q := Option.some.inj hq
      rw [getNext_linkFn hL (hbd q (prevOf_mem hq').2), (prevOf_eq_some_iff hnd q r).1 hq']

theorem lru_list_well_formed_witness :
    Reachable cartDefaults cache2A ∧
      ((cache2A.head = none ↔ cache2A.tail = none) ∧
      (∀ h, cache2A.head = some h → getPrev cache2A h = some none) ∧
      (∀ t, cache2A.tail = some t → getNext cache2A t = some none) ∧
      ∃ l, lruList cache2A = some l ∧ l.Nodup ∧ l.getLast? = cache2A.tail ∧
        ∀ r ∈ l,
          (∀ n, getNext cache2A r = some (some n) → getPrev cache2A n = some (some r)) ∧
          (∀ q, getPrev cache2A r = some (some q) → getNext cache2A q = some (some r))) :=
  ⟨⟨_, cache2A_reachable⟩, lru_list_well_formed cartDefaults cache2A ⟨_, cache2A_reachable⟩⟩

/-- C11 (capacity bound).  After `init_cart_cache` on a table configured with
`MaxCacheFrames = N`, whatever sequence of `put`, `get` and `delete` calls
follows, the walk from `head` along `next` ends and visits at most `N` records. -/
theorem capacity_bound (p : CartParams) (s0 s : CacheState) (ops : List CacheOp)
    (hC : Configured s0) (h : runFromInit p s0 ops = some s) :
    ∃ l, lruList s = some l ∧ l.length ≤ s0.MaxCacheFrames := by
  obtain ⟨hI, hmax⟩ := runFromInit_inv hC h
  obtain ⟨hCs, _, l, hR, _⟩ := hI
  refine ⟨l, hR.lruList_eq, ?_⟩
  have hlen : s.Cache.length = s.MaxCacheFrames := hCs
  rw [← hmax, ← hlen]
  exact hR.length_le

theorem capacity_bound_witness :
    Configured (blank 2) ∧
      runFromInit cartDefaults (blank 2)
        [.put 1 1 (frameOf 65), .put 1 2 (frameOf 66), .put 1 3 (frameOf 67)] ≠ none ∧
      ∃ l, (runFromInit cartDefaults (blank 2)
          [.put 1 1 (frameOf 65), .put 1 2 (frameOf 66), .put 1 3 (frameOf 67)]).bind lruList
            = some l ∧ l.length ≤ (blank 2).MaxCacheFrames := by
  refine ⟨by decide, by decide, ?_⟩
  cases hrun : runFromInit cartDefaults (blank 2)
      [.put 1 1 (frameOf 65), .put 1 2 (frameOf 66), .put 1 3 (frameOf 67)] with
  | none => exact absurd hrun (by decide)
  | some s => exact capacity_bound cartDefaults (blank 2) s _ (by decide) hrun

/-- C12, counterexample.  `cart = 64` is not below `CART_MAX_CARTRIDGES = 64`,
yet `put_cart_cache(64, 1, buf)` returns 0 and `get_cart_cache(64, 1)` then
returns the buffer: the key `64 * 1` is below `CACHE_NO_FRAME`. -/
theorem invalid_key_counterexample :
    (64 : Nat) ≥ cartDefaults.CART_MAX_CARTRIDGES ∧ frameAddr 64 1 = some 64 ∧
    (put_cart_cache cartDefaults cache2 64 1 (frameOf 65)).map Prod.snd = some 0 ∧
    (put_cart_cache cartDefaults cache2 64 1 (frameOf 65)).bind
      (fun r => getPayload cartDefaults r.1 64 1) = some (some (frameOf 65)) := by
  decide

/-- C12, amended.  For every `(cart, frm)` in which either input exceeds its
declared bound (`cart >= CART_MAX_CARTRIDGES` or `frm >= CART_CARTRIDGE_SIZE`)
and whose product does not overflow: when the key `cart * frm` is at least
`CACHE_NO_FRAME`, `put_cart_cache` returns -1 and `get_cart_cache` and
`delete_cart_cache` return `NULL`, with the state unchanged; when the key is
below `CACHE_NO_FRAME`, `put_cart_cache` never returns -1 and, in a reachable
state with `MaxCacheFrames > 0` and a full-size buffer, returns 0. -/
theorem out_of_bounds_rejected_by_key (p : CartParams) (s : CacheState) (cart frm k : Nat)
    (buf : List Nat)
    (hor : cart ≥ p.CART_MAX_CARTRIDGES ∨ frm ≥ p.CART_CARTRIDGE_SIZE)
    (hfa : frameAddr cart frm = some k) :
    (CACHE_NO_FRAME p ≤ k →
      put_cart_cache p s cart frm buf = some (s, -1) ∧
      get_cart_cache p s cart frm = some (s, none) ∧
      delete_cart_cache p s cart frm = some (s, none)) ∧
    (k < CACHE_NO_FRAME p →
      (∀ t r, put_cart_cache p s cart frm buf = some (t, r) → r = 0) ∧
      (Reachable p s → 0 < s.MaxCacheFrames → p.CART_FRAME_SIZE ≤ buf.length →
        ∃ t, put_cart_cache p s cart frm buf = some (t, 0))) := by
  have _ := hor
  refine ⟨fun hk => ⟨put_reject p s cart frm hfa buf hk, get_reject p s cart frm hfa hk,
    delete_reject p s cart frm hfa hk⟩, fun hk => ⟨?_, ?_⟩⟩
  · intro t r hput
    have hk2 : ¬ (k ≥ CACHE_NO_FRAME p) := Nat.not_le.2 hk
    by_cases hN : s.MaxCacheFrames = 0
    · simp [put_cart_cache, hfa, hk2, hN] at hput
    · simp only [put_cart_cache, hfa, if_neg hk2, if_neg hN, Option.bind_eq_bind,
        Option.pure_def, Option.bind_eq_some] at hput
      obtain ⟨_, _, _, _, _, _, h⟩ := hput
      exact (Prod.mk.inj (Option.some.inj h)).2.symm
  · intro hs hN hb
    obtain ⟨t, ht, _⟩ := put_ok p (reachable_inv hs) hN cart frm hfa buf hk hb
    exact ⟨t, ht⟩

theorem out_of_bounds_rejected_by_key_witness :
    ((65 : Nat) ≥ cartDefaults.CART_MAX_CARTRIDGES ∨
        (1023 : Nat) ≥ cartDefaults.CART_CARTRIDGE_SIZE) ∧
      frameAddr 65 1023 = some 66495 ∧ CACHE_NO_FRAME cartDefaults ≤ 66495 ∧
      ((CACHE_NO_FRAME cartDefaults ≤ 66495 →
        put_cart_cache cartDefaults cache2A 65 1023 (frameOf 66) = some (cache2A, -1) ∧
        get_cart_cache cartDefaults cache2A 65 1023 = some (cache2A, none) ∧
        delete_cart_cache cartDefaults cache2A 65 1023 = some (cache2A, none)) ∧
      (66495 < CACHE_NO_FRAME cartDefaults →
        (∀ t r, put_cart_cache cartDefaults cache2A 65 1023 (frameOf 66) = some (t, r) →
          r = 0) ∧
        (Reachable cartDefaults cache2A → 0 < cache2A.MaxCacheFrames →
          cartDefaults.CART_FRAME_SIZE ≤ (frameOf 66).length →
          ∃ t, put_cart_cache cartDefaults cache2A 65 1023 (frameOf 66) = some (t, 0)))) :=
  ⟨by decide, by decide, by decide,
    out_of_bounds_rejected_by_key cartDefaults cache2A 65 1023 66495 (frameOf 66) (by decide)
      (by decide)⟩

/-- C14 (update in place).  In every state reachable from `init_cart_cache`
with `MaxCacheFrames > 0` in which the key of `(cart, frm)` is cached,
`put_cart_cache(cart, frm, buf)` with a frame-sized `buf` returns 0, leaves the
key in its slot with payload `buf`, leaves the `frameAddress` and payload of
every other slot as they were, and every other key is returned by
`get_cart_cache`, or not, with the same payload as before. -/
theorem put_update_in_place (p : CartParams) (s : CacheState) (hs : Reachable p s)
    (hN : 0 < s.MaxCacheFrames) (cart frm : Nat) (buf : List Nat)
    (hb : buf.length = p.CART_FRAME_SIZE)
    (hhit : ∃ s1 ptr, get_cart_cache p s cart frm = some (s1, some ptr)) :
    ∃ t k, frameAddr cart frm = some k ∧ put_cart_cache p s cart frm buf = some (t, 0) ∧
      getAddr t (k % s.MaxCacheFrames) = some k ∧
      getFrame t (k % s.MaxCacheFrames) = some buf ∧
      (∀ i, i ≠ k % s.MaxCacheFrames →
        getAddr t i = getAddr s i ∧ getFrame t i = getFrame s i) ∧
      (∀ c f, frameAddr c f ≠ frameAddr cart frm →
        getPayload p t c f = getPayload p s c f) := by
  have hI := reachable_inv hs
  obtain ⟨s1, ptr, hget⟩ := hhit
  obtain ⟨k, hfa, hk, ha⟩ := get_some_iff p hI hN cart frm hget
  obtain ⟨t, ht, hIt, hmax, hat, hft, hoth, _⟩ :=
    put_ok p hI hN cart frm hfa buf hk (Nat.le_of_eq hb.symm)
  have tb : buf.take p.CART_FRAME_SIZE = buf := by rw [← hb, List.take_length]
  rw [tb] at hft
  refine ⟨t, k, hfa, ht, hat, hft, hoth, ?_⟩
  intro c f hne
  cases hfa2 : frameAddr c f with
  | none => rw [getPayload_undefined p t hfa2, getPayload_undefined p s hfa2]
  | some k2 =>
    have hkk : ¬ (k = k2) := by
      intro e
      apply hne
      rw [hfa2, hfa, e]
    rw [getPayload_eq p hIt (hmax ▸ hN) c f hfa2, getPayload_eq p hI hN c f hfa2, hmax]
    by_cases hslot : k2 % s.MaxCacheFrames = k % s.MaxCacheFrames
    · rw [hslot, hat, ha]
      simp [hkk]
    · rw [(hoth _ hslot).1, (hoth _ hslot).2]

theorem put_update_in_place_witness :
    Reachable cartDefaults cache3 ∧ 0 < cache3.MaxCacheFrames ∧
      (frameOf 70).length = cartDefaults.CART_FRAME_SIZE ∧
      (∃ s1 ptr, get_cart_cache cartDefaults cache3 1 3 = some (s1, some ptr)) ∧
      ∃ t k, frameAddr 1 3 = some k ∧
        put_cart_cache cartDefaults cache3 1 3 (frameOf 70) = some (t, 0) ∧
        getAddr t (k % cache3.MaxCacheFrames) = some k ∧
        getFrame t (k % cache3.MaxCacheFrames) = some (frameOf 70) ∧
        (∀ i, i ≠ k % cache3.MaxCacheFrames →
          getAddr t i = getAddr cache3 i ∧ getFrame t i = getFrame cache3 i) ∧
        (∀ c f, frameAddr c f ≠ frameAddr 1 3 →
          getPayload cartDefaults t c f = getPayload cartDefaults cache3 c f) :=
  ⟨⟨_, cache3_reachable⟩, by decide, by decide, ⟨cache3, 0, by decide⟩,
    put_update_in_place cartDefaults cache3 ⟨_, cache3_reachable⟩ (by decide) 1 3 (frameOf 70)
      (by decide) ⟨cache3, 0, by decide⟩⟩

/-- C15 (unlink is idempotent).  For every well-formed recency list and every
record `r` of the table, `remove_from_lru(r)` returns, and a second
`remove_from_lru(r)` leaves the state the first call left; on a record whose
`next` and `prev` are both `NULL` the call changes nothing. -/
theorem unlink_idempotent (s : CacheState) (hw : WellFormed s) (r : Nat)
    (hr : r < s.Cache.length) :
    (∃ t, remove_from_lru s r = some t ∧ remove_from_lru t r = some t) ∧
    (getNext s r = some none → getPrev s r = some none → remove_from_lru s r = some s) := by
  refine ⟨?_, fun hn hp => remove_noop hn hp⟩
  obtain ⟨l, hR⟩ := hw
  obtain ⟨t, ht, hd, hRt⟩ := remove_from_lru_rep hR hr
  refine ⟨t, ht, ?_⟩
  have hrt : r < t.Cache.length := by rw [hd.2.2.1]; exact hr
  have hL : LinkFn t _ _ := hRt.2.2.2.2
  apply remove_noop
  · rw [getNext_linkFn hL hrt]
    split
    · next hc => rw [hc.1]
    · rw [nextOf_not_mem (List.Nodup.not_mem_erase hR.1)]
  · rw [getPrev_linkFn hL hrt]
    split
    · next hc => rw [hc.2]
    · rw [prevOf_not_mem (List.Nodup.not_mem_erase hR.1)]

theorem unlink_idempotent_witness :
    WellFormed cache3 ∧ 2 < cache3.Cache.length ∧
      ((∃ t, remove_from_lru cache3 2 = some t ∧ remove_from_lru t 2 = some t) ∧
      (getNext cache3 2 = some none → getPrev cache3 2 = some none →
        remove_from_lru cache3 2 = some cache3)) :=
  ⟨(reachable_inv ⟨_, cache3_reachable⟩).2.2.imp (fun _ h => h.1), by decide,
    unlink_idempotent cache3
      ((reachable_inv ⟨_, cache3_reachable⟩).2.2.imp (fun _ h => h.1)) 2 (by decide)⟩

/-- C16 (occupied slots are listed).  In every state reachable from
`init_cart_cache` by `put`, `get` and `delete` calls, the walk from `head`
along `next` ends and visits every slot whose `frameAddress` is not
`CACHE_NO_FRAME`. -/
theorem occupied_slots_listed (p : CartParams) (s : CacheState) (hs : Reachable p s) :
    ∃ l, lruList s = some l ∧
      ∀ i a, getAddr s i = some a → a ≠ CACHE_NO_FRAME p → i ∈ l := by
  obtain ⟨_, _, l, hR, hO⟩ := reachable_inv hs
  exact ⟨l, hR.lruList_eq, hO⟩

theorem occupied_slots_listed_witness :
    Reachable cartDefaults cache3 ∧
      ∃ l, lruList cache3 = some l ∧
        ∀ i a, getAddr cache3 i = some a → a ≠ CACHE_NO_FRAME cartDefaults → i ∈ l :=
  ⟨⟨_, cache3_reachable⟩, occupied_slots_listed cartDefaults cache3 ⟨_, cache3_reachable⟩⟩

/-- C17, counterexample.  The key of `(256, 256)` is `65536 = CACHE_NO_FRAME`:
the empty slot 0 of `cache2A` holds that value in `frameAddress`, yet
`get_cart_cache(256, 256)` returns `NULL`. -/
theorem sentinel_key_counterexample :
    Reachable cartDefaults cache2A ∧ 0 < cache2A.MaxCacheFrames ∧
    frameAddr 256 256 = some 65536 ∧ getAddr cache2A 0 = some 65536 ∧
    get_cart_cache cartDefaults cache2A 256 256 = some (cache2A, none) :=
  ⟨⟨_, cache2A_reachable⟩, by decide, by decide, by decide, by decide⟩

/-- C17, amended.  In every state reachable from `init_cart_cache` with
`MaxCacheFrames > 0`, every slot `i` of the table holds either `CACHE_NO_FRAME`
or an address `a < CACHE_NO_FRAME` with `a % MaxCacheFrames = i`; and
`get_cart_cache(cart, frm)` returns a pointer exactly when the key `cart * frm`
is below `CACHE_NO_FRAME` and some slot of the table holds it. -/
theorem direct_mapped_placement (p : CartParams) (s : CacheState) (hs : Reachable p s)
    (hN : 0 < s.MaxCacheFrames) :
    (∀ i, i < s.MaxCacheFrames → ∃ a, getAddr s i = some a ∧
      (a = CACHE_NO_FRAME p ∨ (a < CACHE_NO_FRAME p ∧ a % s.MaxCacheFrames = i))) ∧
    (∀ cart frm k, frameAddr cart frm = some k →
      ((∃ t ptr, get_cart_cache p s cart frm = some (t, some ptr)) ↔
        (k < CACHE_NO_FRAME p ∧ ∃ i, getAddr s i = some k))) := by
  have hI := reachable_inv hs
  have hP : Placed p s := hI.2.1
  have hlen : s.Cache.length = s.MaxCacheFrames := hI.1
  refine ⟨?_, ?_⟩
  · intro i hi
    obtain ⟨a, ha⟩ := getAddr_isSome (hlen.symm ▸ hi)
    exact ⟨a, ha, hP i a ha⟩
  · intro cart frm k hfa
    constructor
    · rintro ⟨t, ptr, hget⟩
      obtain ⟨k2, hfa2, hk, ha⟩ := get_some_iff p hI hN cart frm hget
      have hkk : k2 = k := Option.some.inj (hfa2.symm.trans hfa)
      subst hkk
      exact ⟨hk, _, ha⟩
    · rintro ⟨hk, i, hi⟩
      have hidx : k % s.MaxCacheFrames = i := by
        rcases hP i _ hi with h | h
        · exact absurd h (Nat.ne_of_lt hk)
        · exact h.2
      rw [← hidx] at hi
      obtain ⟨t, ht, _⟩ := get_hit p hI hN cart frm hfa hk hi
      exact ⟨t, _, ht⟩

theorem direct_mapped_placement_witness :
    Reachable cartDefaults cache3 ∧ 0 < cache3.MaxCacheFrames ∧
      ((∀ i, i < cache3.MaxCacheFrames → ∃ a, getAddr cache3 i = some a ∧
        (a = CACHE_NO_FRAME cartDefaults ∨
          (a < CACHE_NO_FRAME cartDefaults ∧ a % cache3.MaxCacheFrames = i))) ∧
      (∀ cart frm k, frameAddr cart frm = some k →
        ((∃ t ptr, get_cart_cache cartDefaults cache3 cart frm = some (t, some ptr)) ↔
          (k < CACHE_NO_FRAME cartDefaults ∧ ∃ i, getAddr cache3 i = some k)))) :=
  ⟨⟨_, cache3_reachable⟩, by decide,
    direct_mapped_placement cartDefaults cache3 ⟨_, cache3_reachable⟩ (by decide)⟩

/-- C18 (slot index in bounds).  In every state reachable from
`init_cart_cache` with `MaxCacheFrames > 0` and for every `(cart, frm)` whose
key is below `CACHE_NO_FRAME`, the index `(cart * frm) % MaxCacheFrames` is
below `MaxCacheFrames` and is an index of the table, and `get_cart_cache`,
`delete_cart_cache` and (with a buffer of at least `CART_FRAME_SIZE` bytes)
`put_cart_cache` run without a remainder by zero or an access outside the
table. -/
theorem slot_index_in_bounds (p : CartParams) (s : CacheState) (hs : Reachable p s)
    (hN : 0 < s.MaxCacheFrames) (cart frm k : Nat) (hfa : frameAddr cart frm = some k)
    (hk : k < CACHE_NO_FRAME p) :
    k % s.MaxCacheFrames < s.MaxCacheFrames ∧
    k % s.MaxCacheFrames < s.Cache.length ∧
    (∃ r, get_cart_cache p s cart frm = some r) ∧
    (∃ r, delete_cart_cache p s cart frm = some r) ∧
    (∀ buf, p.CART_FRAME_SIZE ≤ buf.length → ∃ r, put_cart_cache p s cart frm buf = some r) := by
  have hI := reachable_inv hs
  have hlen : s.Cache.length = s.MaxCacheFrames := hI.1
  have hidx := Nat.mod_lt k hN
  refine ⟨hidx, hlen.symm ▸ hidx, ?_, ?_, ?_⟩
  · by_cases ha : getAddr s (k % s.MaxCacheFrames) = some k
    · obtain ⟨t, ht, _⟩ := get_hit p hI hN cart frm hfa hk ha
      exact ⟨_, ht⟩
    · exact ⟨_, get_miss p hI.1 hN cart frm hfa ha⟩
  · by_cases ha : getAddr s (k % s.MaxCacheFrames) = some k
    · obtain ⟨t, ht, _⟩ := delete_hit p hI hN cart frm hfa hk ha
      exact ⟨_, ht⟩
    · exact ⟨_, delete_miss p hI.1 hN cart frm hfa (Or.inr ha)⟩
  · intro buf hb
    obtain ⟨t, ht, _⟩ := put_ok p hI hN cart frm hfa buf hk hb
    exact ⟨_, ht⟩

theorem slot_index_in_bounds_witness :
    Reachable cartDefaults cache3 ∧ 0 < cache3.MaxCacheFrames ∧
      frameAddr 63 1023 = some 64449 ∧ 64449 < CACHE_NO_FRAME cartDefaults ∧
      (64449 % cache3.MaxCacheFrames < cache3.MaxCacheFrames ∧
      64449 % cache3.MaxCacheFrames < cache3.Cache.length ∧
      (∃ r, get_cart_cache cartDefaults cache3 63 1023 = some r) ∧
      (∃ r, delete_cart_cache cartDefaults cache3 63 1023 = some r) ∧
      (∀ buf, cartDefaults.CART_FRAME_SIZE ≤ buf.length →
        ∃ r, put_cart_cache cartDefaults cache3 63 1023 buf = some r)) :=
  ⟨⟨_, cache3_reachable⟩, by decide, by decide, by decide,
    slot_index_in_bounds cartDefaults cache3 ⟨_, cache3_reachable⟩ (by decide) 63 1023 64449
      (by decide) (by decide)⟩

/-- C19, failing input.  `cart = frm = 65535` are values of the 16-bit index
types and their product `4294836225` is not below `CACHE_NO_FRAME`, but it is
above `INT_MAX`: the multiplication `cart * frm` overflows, so the three calls
are undefined instead of returning -1 or `NULL` with the state unchanged. -/
theorem overflowing_product_undefined :
    (65535 : Nat) < 2 ^ 16 ∧ 65535 * 65535 ≥ CACHE_NO_FRAME cartDefaults ∧
    2 ^ 31 - 1 < 65535 * 65535 ∧ frameAddr 65535 65535 = none ∧
    put_cart_cache cartDefaults cache2A 65535 65535 (frameOf 66) = none ∧
    get_cart_cache cartDefaults cache2A 65535 65535 = none ∧
    delete_cart_cache cartDefaults cache2A 65535 65535 = none := by
  decide

end CartCache
